import Mathlib

set_option maxHeartbeats 1000000

/-
Shallow embedding of the raid-tracker correlation engine
(src: the Google-Sheets integration module of the cox-raid-tracker repo).

Timestamps are modelled as `Int` milliseconds since epoch: the source keeps
ISO strings and converts with `new Date(x).getTime()`; all comparisons in the
source happen on the millisecond values, so the embedding works on those
directly.  JavaScript `null` becomes `Option`, and JS truthiness on strings /
numbers is modelled explicitly where the source relies on it.
-/

deriving instance DecidableEq for Except

namespace RaidTracker

/-- A participant entry `{name, points}`. -/
structure Player where
  name : String
  points : Int
deriving DecidableEq, Repr

/-- An occurrence record ("raid") as built by `createRaidEntry`.  The `rid`
field is bookkeeping only: it models JavaScript object identity (the source
mutates one shared raid object in place; the embedding rewrites the list entry
with the matching `rid`).  Every other field is a field of the source object. -/
structure Raid where
  rid : Nat
  timestamp : Int
  totalPoints : Option Int
  completionTime : String
  scale : String
  uniqueDrop : String
  players : List Player
  sheetRow : Option Nat
  addedToSheet : Bool
deriving DecidableEq, Repr

/-- A buffered duration orphan `{timestamp, raidTime, scale, playerName}`. -/
structure DurationOrphan where
  timestamp : Int
  raidTime : String
  scale : Option String
  playerName : Option String
deriving DecidableEq, Repr

/-- A buffered loot orphan `{timestamp, itemName, playerName}`. -/
structure LootOrphan where
  timestamp : Int
  itemName : String
  playerName : Option String
deriving DecidableEq, Repr

/-- The module-level mutable state of the sheets module: the `recentRaids`
buffer, the two orphan buffers, the rate-limit timestamp and the cached
client handle.  `nextRid` feeds the ghost identities of new raids, and
`callCount` indexes successive spreadsheet API calls into the environment. -/
structure St where
  raids : List Raid
  durations : List DurationOrphan
  loots : List LootOrphan
  nextRid : Nat
  lastRateLimitError : Int
  clientCached : Bool
  callCount : Nat
deriving DecidableEq, Repr

/-- The state at module load: empty buffers, `lastRateLimitError = 0`,
no cached client. -/
def St.init : St :=
  { raids := [], durations := [], loots := [], nextRid := 0,
    lastRateLimitError := 0, clientCached := false, callCount := 0 }

/-- Outcome of one spreadsheet API call, supplied by the environment.
`ok row` is a successful call whose append response yields row number `row`
(or none when no row number can be extracted from the response). -/
inductive ApiResult where
  | ok (row : Option Nat)
  | rateLimit
  | authError
  | otherError
deriving DecidableEq, Repr

/-- The external spreadsheet service: the result of the k-th API call. -/
def Env : Type := Nat → ApiResult

/-- Observable actions of the persistence gateway, recorded as a trace. -/
inductive Action where
  | cooldownWait (ms : Int)
  | backoffWait (ms : Int)
  | initClient
  | apiAppend (row : List String)
  | apiUpdate (rowNumber : Nat) (row : List String)
  | deferUpdate
deriving DecidableEq, Repr

/- ------------------------------------------------------------------ -/
/- Constants of the source module                                      -/
/- ------------------------------------------------------------------ -/

def RATE_LIMIT_COOLDOWN : Int := 60000

def MAX_RAID_HISTORY : Nat := 10

def RAID_TIMEOUT : Int := 300000

def ORPHAN_TIMEOUT : Int := 10000

def MAX_PLAYERS : Nat := 5

def MIN_TEAM_SIZE : Nat := 10

def MERGE_WINDOW : Int := 3000

def MIN_POINTS_THRESHOLD : Int := 2000

def POINTS_TOLERANCE : Nat := 500

def FIND_TIME_WINDOW : Int := 120000

def LOOT_TIME_WINDOW : Int := 60000

def DURATION_TIME_THRESHOLD : Int := 60000

def MAX_DATA_AGE : Int := 300000

def MAX_RETRIES : Nat := 3

def RETRY_DELAY : Int := 2000

/- ------------------------------------------------------------------ -/
/- JS helpers                                                          -/
/- ------------------------------------------------------------------ -/

/-- JS `x || null` on an optional string: the empty string is falsy. -/
def jsOrNull (o : Option String) : Option String :=
  match o with
  | some s => if s = "" then none else some s
  | none => none

/-- JS `if (x) y = x` on an optional string, keeping `d` otherwise. -/
def strOr (o : Option String) (d : String) : String :=
  match o with
  | some s => if s = "" then d else s
  | none => d

/-- JS truthiness of an optional row number (`null` and `0` are falsy). -/
def optNatTruthy (o : Option Nat) : Bool :=
  o.getD 0 != 0

/-- JS `String.prototype.includes` on character lists. -/
def charsHasSub : List Char → List Char → Bool
  | [], needle => needle == []
  | c :: t, needle => needle.isPrefixOf (c :: t) || charsHasSub t needle

/-- JS `hay.includes(needle)`. -/
def strContains (hay needle : String) : Bool :=
  charsHasSub hay.toList needle.toList

/- ------------------------------------------------------------------ -/
/- Events produced by the parser                                       -/
/- ------------------------------------------------------------------ -/

/-- A parsed points notification (`type: 'points'`).  The parser only ever
returns such an event with a non-null `totalPoints`, and its `players` array
holds at most one `{name, points}` entry. -/
structure ScoreEvent where
  timestamp : Int
  totalPoints : Int
  raidTime : Option String
  players : List Player
deriving DecidableEq, Repr

/-- A parsed duration notification (`type: 'duration'`). -/
structure DurationEvent where
  timestamp : Int
  raidTime : String
  scale : Option String
  playerName : Option String
deriving DecidableEq, Repr

/-- A parsed loot notification (`type: 'loot'`). -/
structure LootEvent where
  timestamp : Int
  itemName : String
  playerName : Option String
deriving DecidableEq, Repr

/-- A classified event as dispatched by `appendToSheet` on `data.type`. -/
inductive Event where
  | points (e : ScoreEvent)
  | duration (e : DurationEvent)
  | loot (e : LootEvent)
  | unknown (typ : String)
deriving DecidableEq, Repr

/-- The three recognized event types. -/
def Event.recognized : Event → Prop
  | .unknown _ => False
  | _ => True

instance : DecidablePred Event.recognized := by
  intro ev
  cases ev <;> simp [Event.recognized] <;> infer_instance

/- ------------------------------------------------------------------ -/
/- isScaleLargeEnough                                                  -/
/- ------------------------------------------------------------------ -/

/-- The leading digit run of a scale string (the regex `^(\d+)` match). -/
def leadingDigits (s : String) : List Char :=
  s.toList.takeWhile Char.isDigit

/-- Decimal value of a digit run (`parseInt`). -/
def digitsToNat (cs : List Char) : Nat :=
  cs.foldl (fun a c => a * 10 + (c.toNat - 48)) 0

/-- `isScaleLargeEnough(scale)`: empty scale or no parseable leading number
passes; otherwise the leading number must be at least `MIN_TEAM_SIZE`. -/
def isScaleLargeEnough (scale : String) : Bool :=
  if scale = "" then true
  else
    let ds := leadingDigits scale
    if ds = [] then true
    else MIN_TEAM_SIZE ≤ digitsToNat ds

/- ------------------------------------------------------------------ -/
/- cleanOrphans                                                        -/
/- ------------------------------------------------------------------ -/

/-- `cleanOrphans()`: drop every orphan whose timestamp is before
`now - ORPHAN_TIMEOUT` from both buffers. -/
def cleanOrphans (s : St) (now : Int) : St :=
  let cutoff := now - ORPHAN_TIMEOUT
  { s with
    durations := s.durations.filter (fun o => cutoff ≤ o.timestamp)
    loots := s.loots.filter (fun o => cutoff ≤ o.timestamp) }

/- ------------------------------------------------------------------ -/
/- mergeOrphansWithRaid                                                -/
/- ------------------------------------------------------------------ -/

/-- The scan of `orphanedMessages.durations` for the orphan closest in time
before the raid, within `MERGE_WINDOW`.  The accumulator is the running
`(closestIndex, orphan, closestTimeDiff)`; the comparison is strict, so the
first of two equal deltas wins, as in the source loop. -/
def closestDurationScan :
    List DurationOrphan → Int → Nat → Option (Nat × DurationOrphan × Int) →
    Option (Nat × DurationOrphan × Int)
  | [], _, _, best => best
  | o :: rest, raidTime, i, best =>
      let timeDiff := raidTime - o.timestamp
      let inWin : Bool := decide (0 ≤ timeDiff) && decide (timeDiff ≤ MERGE_WINDOW)
      let closer : Bool :=
        match best with
        | none => true
        | some (_, _, d) => decide (timeDiff < d)
      closestDurationScan rest raidTime (i + 1)
        (if inWin && closer then some (i, o, timeDiff) else best)

/-- One matching loot orphan: its index in the buffer, the orphan and its
time delta to the raid. -/
structure LootMatch where
  idx : Nat
  orphan : LootOrphan
  timeDiff : Int
deriving DecidableEq, Repr

/-- Whether a loot orphan arrived in the `[0, MERGE_WINDOW]` window before a
raid created at `raidTime`. -/
def lootQualifies (raidTime : Int) (o : LootOrphan) : Bool :=
  decide (0 ≤ raidTime - o.timestamp) && decide (raidTime - o.timestamp ≤ MERGE_WINDOW)

/-- The source collects matching loot orphans by iterating the buffer from the
last index down to 0, so the match list carries descending indices. -/
def collectLootMatches (loots : List LootOrphan) (raidTime : Int) : List LootMatch :=
  (loots.enum).reverse.filterMap (fun p =>
    if lootQualifies raidTime p.2 then some ⟨p.1, p.2, raidTime - p.2.timestamp⟩ else none)

/-- Stable insertion of a match into a list sorted by ascending `timeDiff`
(ties keep the existing order, as `Array.prototype.sort` is stable). -/
def insertByDiff (x : LootMatch) : List LootMatch → List LootMatch
  | [] => [x]
  | y :: ys => if y.timeDiff ≤ x.timeDiff then y :: insertByDiff x ys else x :: y :: ys

/-- Stable sort by ascending `timeDiff`: the `matchingOrphans.sort` call. -/
def sortByDiff (l : List LootMatch) : List LootMatch :=
  l.foldl (fun acc x => insertByDiff x acc) []

/-- Stable insertion for the descending index sort. -/
def insertDescNat (x : Nat) : List Nat → List Nat
  | [] => [x]
  | y :: ys => if x ≤ y then y :: insertDescNat x ys else x :: y :: ys

/-- The `indicesToRemove` sort: descending numeric order. -/
def sortDescNat (l : List Nat) : List Nat :=
  l.foldl (fun acc x => insertDescNat x acc) []

/-- The loot message format `"(playerName) - itemName"`, or the bare item
name when the player is unknown (falsy). -/
def lootMessageOf (playerName : Option String) (itemName : String) : String :=
  match jsOrNull playerName with
  | some p => "(" ++ p ++ ") - " ++ itemName
  | none => itemName

/-- Append a loot message to the accumulated `uniqueDrop` string. -/
def appendDrop (old msg : String) : String :=
  if old = "" then msg else old ++ ", " ++ msg

/-- Application of the sorted loot matches to the raid, appending each
formatted message to the accumulated `uniqueDrop`. -/
def applyLootMatches (ms : List LootMatch) (r : Raid) : Raid :=
  ms.foldl
    (fun r m =>
      { r with uniqueDrop :=
          appendDrop r.uniqueDrop (lootMessageOf m.orphan.playerName m.orphan.itemName) })
    r

/-- `mergeOrphansWithRaid(raid)`: absorb buffered orphans into a freshly
created raid.  Returns the updated buffers, the updated raid and the
`merged` flag.  The duration part consumes the single closest qualifying
orphan; the loot part consumes every qualifying orphan, applies them sorted
by smallest delta first, and then splices the matched indices out of the
buffer in descending index order. -/
def mergeOrphansWithRaid (s : St) (raid : Raid) : St × Raid × Bool :=
  let raidTime := raid.timestamp
  -- duration orphans: closest one that arrived before the raid
  let step1 : St × Raid × Bool :=
    if raid.completionTime = "" ∧ s.durations ≠ [] then
      match closestDurationScan s.durations raidTime 0 none with
      | some (idx, o, _) =>
          let raid' := { raid with
            completionTime := o.raidTime
            scale := strOr o.scale raid.scale }
          ({ s with durations := s.durations.eraseIdx idx }, raid', true)
      | none => (s, raid, false)
    else (s, raid, false)
  let s1 := step1.1
  let raid1 := step1.2.1
  let merged1 := step1.2.2
  -- loot orphans: all that arrived before the raid, closest first
  let lms := sortByDiff (collectLootMatches s1.loots raidTime)
  if lms ≠ [] then
    let raid2 := applyLootMatches lms raid1
    let idxs := sortDescNat (lms.map LootMatch.idx)
    let loots' := idxs.foldl (fun l i => l.eraseIdx i) s1.loots
    ({ s1 with loots := loots' }, raid2, true)
  else
    (s1, raid1, merged1)

/- ------------------------------------------------------------------ -/
/- createRaidEntry                                                     -/
/- ------------------------------------------------------------------ -/

/-- `createRaidEntry(data)`: filter out participants below the points
threshold, cap at `MAX_PLAYERS`, push the new raid, then evict on capacity
(one `shift` when over `MAX_RAID_HISTORY`) and on age (`shift` while the
oldest raid is older than `RAID_TIMEOUT`). -/
def createRaidEntry (data : ScoreEvent) (s : St) (now : Int) : St × Raid :=
  let filteredPlayers :=
    (data.players.filter (fun p => MIN_POINTS_THRESHOLD ≤ p.points)).take MAX_PLAYERS
  let raid : Raid :=
    { rid := s.nextRid
      timestamp := data.timestamp
      totalPoints := some data.totalPoints
      completionTime := (data.raidTime.getD "")
      scale := ""
      uniqueDrop := ""
      players := filteredPlayers
      sheetRow := none
      addedToSheet := false }
  let raids := s.raids ++ [raid]
  let raids := if MAX_RAID_HISTORY < raids.length then raids.tail else raids
  let cutoff := now - RAID_TIMEOUT
  let raids := raids.dropWhile (fun r => r.timestamp < cutoff)
  ({ s with raids := raids, nextRid := s.nextRid + 1 }, raid)

/- ------------------------------------------------------------------ -/
/- findRaidByTotalPoints / findRaidForLoot                             -/
/- ------------------------------------------------------------------ -/

/-- The body of the `findRaidByTotalPoints` loop, on the reversed raid list
(most recent first).  JS computes `Math.abs(raid.totalPoints - totalPoints)`,
in which a null `totalPoints` coerces to 0. -/
def findRaidRev : List Raid → Option Int → Int → Option Raid
  | [], _, _ => none
  | r :: rest, totalPoints, now =>
      let timeDiff := now - r.timestamp
      match totalPoints with
      | some tp =>
          if (r.totalPoints.getD 0 - tp).natAbs ≤ POINTS_TOLERANCE ∧
             timeDiff ≤ FIND_TIME_WINDOW then some r
          else findRaidRev rest (some tp) now
      | none =>
          if r.totalPoints = none ∧ timeDiff ≤ FIND_TIME_WINDOW then some r
          else findRaidRev rest none now

/-- `findRaidByTotalPoints(totalPoints)`: scan `recentRaids` most recent
first; for a concrete value match within `POINTS_TOLERANCE` and the 2-minute
window; for `null` match the most recent placeholder raid in the window. -/
def findRaidByTotalPoints (raids : List Raid) (totalPoints : Option Int) (now : Int) :
    Option Raid :=
  findRaidRev raids.reverse totalPoints now

/-- First pass of `findRaidForLoot`: most recent raid in the window whose
player list contains the loot's player name (strict `===` against the raw,
possibly null, name). -/
def findLootRaidRev1 : List Raid → Option String → Int → Option Raid
  | [], _, _ => none
  | r :: rest, pn, now =>
      if now - r.timestamp ≤ LOOT_TIME_WINDOW ∧
         r.players.any (fun p => (some p.name : Option String) == pn) then some r
      else findLootRaidRev1 rest pn now

/-- Second pass of `findRaidForLoot`: most recent raid within the window. -/
def findLootRaidRev2 : List Raid → Int → Option Raid
  | [], _ => none
  | r :: rest, now =>
      if now - r.timestamp ≤ LOOT_TIME_WINDOW then some r
      else findLootRaidRev2 rest now

/-- `findRaidForLoot(lootData)`: prefer a recent raid with the player,
falling back to the most recent raid in the window. -/
def findRaidForLoot (raids : List Raid) (playerName : Option String) (now : Int) :
    Option Raid :=
  match findLootRaidRev1 raids.reverse playerName now with
  | some r => some r
  | none => findLootRaidRev2 raids.reverse now

/- ------------------------------------------------------------------ -/
/- raidToRow                                                           -/
/- ------------------------------------------------------------------ -/

/-- JS `x || ''` on an optional number cell (0 and null are falsy). -/
def intCell (v : Option Int) : String :=
  match v with
  | some n => if n = 0 then "" else toString n
  | none => ""

/-- JS `x || ''` on a string cell. -/
def strCell (sv : String) : String := sv

/-- `raidToRow(raid)`: timestamp, totalPoints, completionTime, uniqueDrop,
then `MAX_PLAYERS` (name, points) pairs, then the scale column.
`formatTimestamp`'s locale rendering is abstracted as the decimal epoch
milliseconds; no verified claim depends on cell contents. -/
def raidToRow (raid : Raid) : List String :=
  let base :=
    [toString raid.timestamp, intCell raid.totalPoints,
     strCell raid.completionTime, strCell raid.uniqueDrop]
  let playerCells :=
    ((List.range MAX_PLAYERS).map (fun i =>
      match raid.players[i]? with
      | some p => [strCell p.name, intCell (some p.points)]
      | none => ["", ""])).flatten
  base ++ playerCells ++ [strCell raid.scale]

/- ------------------------------------------------------------------ -/
/- Persistence gateway: appendRow / updateRow                          -/
/- ------------------------------------------------------------------ -/

/-- Result of a gateway call: the state after it, the wall-clock time after
its waits, the trace of its actions, and its return or thrown error. -/
structure GOut (α : Type) where
  st : St
  endTime : Int
  trace : List Action
  res : Except String α
deriving Repr

/-- The cooldown wait `RATE_LIMIT_COOLDOWN - (now - lastRateLimitError)`
both gateway calls perform when still inside the cooldown window. -/
def cooldownLeft (s : St) (now : Int) : Int :=
  RATE_LIMIT_COOLDOWN - (now - s.lastRateLimitError)

/-- `appendRow(sheetName, row, retryCount)`: wait out the shared rate-limit
cooldown, lazily initialize the client, issue the append; on a rate-limit
error record the cooldown start and retry with exponential backoff (2s
doubling) while `retryCount < MAX_RETRIES`, then fail; on an auth error
drop the cached client and retry after 2s while `retryCount < MAX_RETRIES`,
then fail; other errors are rethrown.  Waits advance the clock.  `fuel`
is structural-recursion bookkeeping only: the wrapper `appendRow` supplies
`MAX_RETRIES + 1 - retryCount`, which the `retryCount` guard keeps positive,
so the fuel-exhausted branch is never reached. -/
def appendRowFuel (env : Env) : Nat → St → Int → List String → Nat → GOut (Option Nat)
  | 0, s, now, _, _ => { st := s, endTime := now, trace := [], res := .error "unreachable" }
  | fuel + 1, s, now, row, retryCount =>
      let inCd := now - s.lastRateLimitError < RATE_LIMIT_COOLDOWN
      let now1 := if inCd then now + cooldownLeft s now else now
      let tr1 : List Action := if inCd then [Action.cooldownWait (cooldownLeft s now)] else []
      let s1 := if s.clientCached then s else { s with clientCached := true }
      let tr2 : List Action := if s.clientCached then [] else [Action.initClient]
      let result := env s1.callCount
      let s2 := { s1 with callCount := s1.callCount + 1 }
      let tr := tr1 ++ tr2 ++ [Action.apiAppend row]
      match result with
      | .ok r => { st := s2, endTime := now1, trace := tr, res := .ok r }
      | .rateLimit =>
          let s3 := { s2 with lastRateLimitError := now1 }
          if retryCount < MAX_RETRIES then
            let delay := RETRY_DELAY * (2 : Int) ^ retryCount
            let sub := appendRowFuel env fuel s3 (now1 + delay) row (retryCount + 1)
            { sub with trace := tr ++ [Action.backoffWait delay] ++ sub.trace }
          else
            { st := s3, endTime := now1, trace := tr,
              res := .error "Failed to append row after 3 retries due to rate limiting" }
      | .authError =>
          let s3 := { s2 with clientCached := false }
          if retryCount < MAX_RETRIES then
            let sub := appendRowFuel env fuel s3 (now1 + RETRY_DELAY) row (retryCount + 1)
            { sub with trace := tr ++ [Action.backoffWait RETRY_DELAY] ++ sub.trace }
          else
            { st := s3, endTime := now1, trace := tr, res := .error "auth error" }
      | .otherError =>
          { st := s2, endTime := now1, trace := tr, res := .error "other error" }

/-- `appendRow` entry point, with the retry budget as fuel. -/
def appendRow (env : Env) (s : St) (now : Int) (row : List String) (retryCount : Nat) :
    GOut (Option Nat) :=
  appendRowFuel env (MAX_RETRIES + 1 - retryCount) s now row retryCount

/-- `updateRow(sheetName, rowNumber, row, retryCount)`: same cooldown and
rate-limit retry handling as `appendRow`, but its catch block has no
authentication branch: auth errors (like any other non-rate-limit error)
are rethrown at once, without invalidating the cached client. -/
def updateRowFuel (env : Env) : Nat → St → Int → Nat → List String → Nat → GOut Unit
  | 0, s, now, _, _, _ => { st := s, endTime := now, trace := [], res := .error "unreachable" }
  | fuel + 1, s, now, rowNumber, row, retryCount =>
      let inCd := now - s.lastRateLimitError < RATE_LIMIT_COOLDOWN
      let now1 := if inCd then now + cooldownLeft s now else now
      let tr1 : List Action := if inCd then [Action.cooldownWait (cooldownLeft s now)] else []
      let s1 := if s.clientCached then s else { s with clientCached := true }
      let tr2 : List Action := if s.clientCached then [] else [Action.initClient]
      let result := env s1.callCount
      let s2 := { s1 with callCount := s1.callCount + 1 }
      let tr := tr1 ++ tr2 ++ [Action.apiUpdate rowNumber row]
      match result with
      | .ok _ => { st := s2, endTime := now1, trace := tr, res := .ok () }
      | .rateLimit =>
          let s3 := { s2 with lastRateLimitError := now1 }
          if retryCount < MAX_RETRIES then
            let delay := RETRY_DELAY * (2 : Int) ^ retryCount
            let sub := updateRowFuel env fuel s3 (now1 + delay) rowNumber row (retryCount + 1)
            { sub with trace := tr ++ [Action.backoffWait delay] ++ sub.trace }
          else
            { st := s3, endTime := now1, trace := tr, res := .error "rate limit error" }
      | .authError =>
          { st := s2, endTime := now1, trace := tr, res := .error "auth error" }
      | .otherError =>
          { st := s2, endTime := now1, trace := tr, res := .error "other error" }

/-- `updateRow` entry point, with the retry budget as fuel. -/
def updateRow (env : Env) (s : St) (now : Int) (rowNumber : Nat) (row : List String)
    (retryCount : Nat) : GOut Unit :=
  updateRowFuel env (MAX_RETRIES + 1 - retryCount) s now rowNumber row retryCount

/- ------------------------------------------------------------------ -/
/- Correlator handlers                                                 -/
/- ------------------------------------------------------------------ -/

/-- Result of a handler: the state after it, the trace of gateway actions
it performed, and its return value or thrown error.  The state reflects all
in-place mutations made before a throw, as in the source. -/
structure HOut (α : Type) where
  st : St
  trace : List Action
  res : Except String α
deriving Repr

/-- Write an updated raid object back into the list entry it was read from
(the source mutates the shared object in place; `rid` models its identity). -/
def setRaid (raids : List Raid) (r : Raid) : List Raid :=
  raids.map (fun x => if x.rid = r.rid then r else x)

/-- The persist-or-defer idiom shared by the handlers: when the raid is
already on the sheet (truthy `addedToSheet` and `sheetRow`), push an update
of its current projection and rethrow any failure; otherwise leave the state
as is (with the given trace) and succeed with `val`. -/
def persistIfAdded (env : Env) (s' : St) (now : Int) (raid : Raid)
    (elseTrace : List Action) {A : Type} (val : A) : HOut A :=
  if raid.addedToSheet && optNatTruthy raid.sheetRow then
    let u := updateRow env s' now (raid.sheetRow.getD 0) (raidToRow raid) 0
    { st := u.st, trace := u.trace,
      res := match u.res with | .ok _ => .ok val | .error e => .error e }
  else
    { st := s', trace := elseTrace, res := .ok val }

/-- The branch of `handleRaidCompletion` taken when `findRaidByTotalPoints`
found an existing raid: promote a placeholder's `totalPoints`, then add the
event's (first) player under the threshold / capacity / duplicate-name rules,
updating the sheet row if the raid is already persisted and scheduling a
deferred update otherwise. -/
def scoreExisting (env : Env) (s : St) (now : Int) (data : ScoreEvent) (raid0 : Raid) :
    HOut (Option Raid) :=
  let raid1 :=
    if raid0.totalPoints = none then { raid0 with totalPoints := some data.totalPoints }
    else raid0
  match data.players.head? with
  | some newPlayer =>
      if newPlayer.points < MIN_POINTS_THRESHOLD then
        { st := { s with raids := setRaid s.raids raid1 }, trace := [], res := .ok (some raid1) }
      else if raid1.players.length < MAX_PLAYERS then
        if raid1.players.any (fun p => p.name == newPlayer.name) then
          { st := { s with raids := setRaid s.raids raid1 }, trace := [],
            res := .ok (some raid1) }
        else
          let raid2 := { raid1 with players := raid1.players ++ [newPlayer] }
          let s' := { s with raids := setRaid s.raids raid2 }
          persistIfAdded env s' now raid2 [Action.deferUpdate] (some raid2)
      else
        { st := { s with raids := setRaid s.raids raid1 }, trace := [], res := .ok (some raid1) }
  | none =>
      { st := { s with raids := setRaid s.raids raid1 }, trace := [], res := .ok (some raid1) }

/-- The tail of `handleRaidCompletion`'s no-match branch: the team-size gate
followed by the persist-or-update block. -/
def finishScorePath (env : Env) (s : St) (now : Int) (raid : Raid) : HOut (Option Raid) :=
  if !isScaleLargeEnough raid.scale then
    { st := s, trace := [], res := .ok (some raid) }
  else if raid.totalPoints.isSome && !raid.addedToSheet then
    let a := appendRow env s now (raidToRow raid) 0
    match a.res with
    | .ok (some rn) =>
        let raid' := { raid with sheetRow := some rn, addedToSheet := true }
        { st := { a.st with raids := setRaid a.st.raids raid' }, trace := a.trace,
          res := .ok (some raid') }
    | .ok none =>
        { st := a.st, trace := a.trace, res := .ok (some raid) }
    | .error e =>
        { st := a.st, trace := a.trace, res := .error e }
  else
    persistIfAdded env s now raid [] (some raid)

/-- The placeholder-promotion merge: set the placeholder's totalPoints and
add the event's player under the threshold / capacity / duplicate rules. -/
def placeholderMerge (data : ScoreEvent) (ph : Raid) : Raid :=
  let raid1 := { ph with totalPoints := some data.totalPoints }
  match data.players.head? with
  | some newPlayer =>
      if MIN_POINTS_THRESHOLD ≤ newPlayer.points ∧ raid1.players.length < MAX_PLAYERS then
        if raid1.players.any (fun p => p.name == newPlayer.name) then raid1
        else { raid1 with players := raid1.players ++ [newPlayer] }
      else raid1
  | none => raid1

/-- The branch of `handleRaidCompletion` taken when no raid matched the
event's points: merge into a placeholder raid if one exists, otherwise
create a new raid and reconcile orphans; then gate and persist. -/
def scoreNoMatch (env : Env) (s : St) (now : Int) (data : ScoreEvent) : HOut (Option Raid) :=
  match findRaidByTotalPoints s.raids none now with
  | some ph =>
      let raid2 := placeholderMerge data ph
      let s' := { s with raids := setRaid s.raids raid2 }
      finishScorePath env s' now raid2
  | none =>
      let created := createRaidEntry data s now
      let merged := mergeOrphansWithRaid created.1 created.2
      let s' := { merged.1 with raids := setRaid merged.1.raids merged.2.1 }
      finishScorePath env s' now merged.2.1

/-- `handleRaidCompletion(data)`: drop stale events, clean orphans, then
either extend the matching raid or run the no-match branch. -/
def handleRaidCompletion (env : Env) (s : St) (now : Int) (data : ScoreEvent) :
    HOut (Option Raid) :=
  if MAX_DATA_AGE < now - data.timestamp then
    { st := s, trace := [], res := .ok none }
  else
    let s1 := cleanOrphans s now
    match findRaidByTotalPoints s1.raids (some data.totalPoints) now with
    | some raid0 => scoreExisting env s1 now data raid0
    | none => scoreNoMatch env s1 now data

/-- The most-recent raid within the duration window that has no completion
time yet, scanning the reversed raid list. -/
def findDurationTargetRev : List Raid → Int → Option Raid
  | [], _ => none
  | r :: rest, now =>
      if now - r.timestamp ≤ DURATION_TIME_THRESHOLD ∧ r.completionTime = "" then some r
      else findDurationTargetRev rest now

/-- The duration orphan buffered for an unmatched duration event. -/
def durationOrphanOf (data : DurationEvent) : DurationOrphan :=
  { timestamp := data.timestamp, raidTime := data.raidTime,
    scale := jsOrNull data.scale, playerName := jsOrNull data.playerName }

/-- The loot orphan buffered for an unmatched loot event. -/
def lootOrphanOf (data : LootEvent) : LootOrphan :=
  { timestamp := data.timestamp, itemName := data.itemName,
    playerName := jsOrNull data.playerName }

/-- The body of `handleDurationUpdate` after `cleanOrphans`. -/
def durationBody (env : Env) (s : St) (now : Int) (data : DurationEvent) : HOut Unit :=
  match findDurationTargetRev s.raids.reverse now with
  | some raid0 =>
      let raid1 := { raid0 with
        completionTime := data.raidTime
        scale := strOr data.scale raid0.scale }
      let s' := { s with raids := setRaid s.raids raid1 }
      persistIfAdded env s' now raid1 [] ()
  | none =>
      { st := { s with durations := s.durations ++ [durationOrphanOf data] },
        trace := [], res := .ok () }

/-- `handleDurationUpdate(data)`: clean orphans, then update the most recent
raid lacking a completion time, or buffer a duration orphan. -/
def handleDurationUpdate (env : Env) (s : St) (now : Int) (data : DurationEvent) :
    HOut Unit :=
  durationBody env (cleanOrphans s now) now data

/-- The body of `handleLootDrop` after `cleanOrphans`. -/
def lootBody (env : Env) (s : St) (now : Int) (data : LootEvent) : HOut Unit :=
  let lootMessage := lootMessageOf data.playerName data.itemName
  match findRaidForLoot s.raids data.playerName now with
  | none =>
      { st := { s with loots := s.loots ++ [lootOrphanOf data] },
        trace := [], res := .ok () }
  | some raid0 =>
      let dedupHit :=
        raid0.uniqueDrop != "" &&
        (match jsOrNull data.playerName with
         | some p => strContains raid0.uniqueDrop ("(" ++ p ++ ")")
         | none => false)
      if dedupHit then
        { st := s, trace := [], res := .ok () }
      else
        let raid1 := { raid0 with uniqueDrop := appendDrop raid0.uniqueDrop lootMessage }
        let s' := { s with raids := setRaid s.raids raid1 }
        persistIfAdded env s' now raid1 [] ()

/-- `handleLootDrop(data)`: clean orphans, find a target raid, apply the
one-purple-per-player dedup rule, then merge and persist or buffer. -/
def handleLootDrop (env : Env) (s : St) (now : Int) (data : LootEvent) : HOut Unit :=
  lootBody env (cleanOrphans s now) now data

/-- `appendToSheet(data)`: dispatch on the event type; unknown types throw.
The catch block logs and rethrows, so every handler error propagates. -/
def appendToSheet (env : Env) (s : St) (now : Int) (ev : Event) : HOut Unit :=
  match ev with
  | .points e =>
      let h := handleRaidCompletion env s now e
      { st := h.st, trace := h.trace,
        res := match h.res with | .ok _ => .ok () | .error er => .error er }
  | .duration e => handleDurationUpdate env s now e
  | .loot e => handleLootDrop env s now e
  | .unknown t => { st := s, trace := [], res := .error ("Unknown data type: " ++ t) }

/- ------------------------------------------------------------------ -/
/- Specification-side definitions (worded from the spec, for refinement
   statements; each is compared against the source-derived functions)   -/
/- ------------------------------------------------------------------ -/

/-- De-duplication by participant name, keeping first occurrences in order. -/
def dedupByName (l : List Player) : List Player :=
  l.foldl (fun acc p => if acc.any (fun q => q.name == p.name) then acc else acc ++ [p]) []

/-- The spec's participant-list formula: the de-duplicated-by-name union in
arrival order, excluding sub-threshold participants, capped at `MAX_PLAYERS`. -/
def specParticipants (ps : List Player) : List Player :=
  (dedupByName (ps.filter (fun p => MIN_POINTS_THRESHOLD ≤ p.points))).take MAX_PLAYERS

/-- One step of the source's participant accumulation: skip a sub-threshold
player, then add under the capacity and duplicate-name rules. -/
def addParticipant (ps : List Player) (p? : Option Player) : List Player :=
  match p? with
  | none => ps
  | some p =>
      if p.points < MIN_POINTS_THRESHOLD then ps
      else if ps.length < MAX_PLAYERS then
        if ps.any (fun q => q.name == p.name) then ps else ps ++ [p]
      else ps

/-- The spec's qualification predicate for `findByTotalPoints(points)` with a
concrete points value: tolerance on the record's (non-null) total and the
2-minute window. -/
def raidQualPoints (now points : Int) (r : Raid) : Prop :=
  (∃ tp, r.totalPoints = some tp ∧ (tp - points).natAbs ≤ POINTS_TOLERANCE) ∧
    now - r.timestamp ≤ FIND_TIME_WINDOW

instance (now points : Int) (r : Raid) : Decidable (raidQualPoints now points r) := by
  unfold raidQualPoints
  infer_instance

/-- The spec's qualification predicate for the placeholder lookup. -/
def raidQualNull (now : Int) (r : Raid) : Prop :=
  r.totalPoints = none ∧ now - r.timestamp ≤ FIND_TIME_WINDOW

instance (now : Int) (r : Raid) : Decidable (raidQualNull now r) := by
  unfold raidQualNull
  infer_instance

/-- Processing a stream of score events, each at its own timestamp, through
the full entry point. -/
def procScores (env : Env) (s : St) (events : List ScoreEvent) : St :=
  events.foldl (fun st e => (appendToSheet env st e.timestamp (Event.points e)).st) s

/-- States reachable from the module-load state by any sequence of events,
under any environment and at any wall-clock times. -/
inductive Reachable : St → Prop where
  | init : Reachable St.init
  | step (s : St) (env : Env) (now : Int) (ev : Event) :
      Reachable s → Reachable (appendToSheet env s now ev).st

/- ------------------------------------------------------------------ -/
/- Concrete test vectors for the closed statements                     -/
/- ------------------------------------------------------------------ -/

/-- An always-successful store whose append responses expose no row number. -/
def envOk : Env := fun _ => ApiResult.ok none

/-- An always-successful store that reports row 7 for every call. -/
def envOkRow : Env := fun _ => ApiResult.ok (some 7)

/-- A store that rate-limits every call. -/
def envRL : Env := fun _ => ApiResult.rateLimit

/-- A store that fails every call with an authentication error. -/
def envAuth : Env := fun _ => ApiResult.authError

/-- The spec scenario's first score event (Hyperr, totals 291233). -/
def ce1 : ScoreEvent :=
  { timestamp := 1000000, totalPoints := 291233, raidTime := none,
    players := [{ name := "Hyperr", points := 94987 }] }

/-- The spec scenario's second score event (rg44, totals 291200). -/
def ce2 : ScoreEvent :=
  { timestamp := 1002000, totalPoints := 291200, raidTime := none,
    players := [{ name := "rg44", points := 94394 }] }

/-- A state holding two buffered loot orphans for the same participant. -/
def sC2 : St :=
  { St.init with loots :=
      [{ timestamp := 2500, itemName := "Twisted bow", playerName := some "Hyperr" },
       { timestamp := 4000, itemName := "Elder maul", playerName := some "Hyperr" }] }

/-- A score event arriving 1s after the later of the two orphans above. -/
def ceC2 : ScoreEvent :=
  { timestamp := 5000, totalPoints := 291233, raidTime := none,
    players := [{ name := "Hyperr", points := 94987 }] }

/-- A placeholder record (null totalPoints) created at t = 100000. -/
def rC4 : Raid :=
  { rid := 0, timestamp := 100000, totalPoints := none, completionTime := "",
    scale := "", uniqueDrop := "", players := [], sheetRow := none, addedToSheet := false }

/-- A gateway state whose client handle is cached and whose cooldown is over. -/
def sGw : St := { St.init with clientCached := true }

/-- A store environment whose calls all succeed (no rate limit, no auth
failure): the handlers' only error sources are then absent. -/
def EnvHealthy (env : Env) : Prop := ∀ k, ∃ r, env k = ApiResult.ok r

/-- Distinctness of the ghost raid identities, the well-formedness under
which `setRaid` models in-place mutation exactly. -/
def ridsNodup (s : St) : Prop := (s.raids.map Raid.rid).Nodup

/-- A state holding one duration orphan with a small (gate-failing) team
size, buffered 1s before the score event below. -/
def sC7 : St :=
  { St.init with durations :=
      [{ timestamp := 4000, raidTime := "30:00.00", scale := some "8-10", playerName := none }] }

/-- An aged duration orphan (timestamp 0). -/
def oD9 : DurationOrphan :=
  { timestamp := 0, raidTime := "45:43.20", scale := none, playerName := none }

/-- A full registry of ten raids created one second apart. -/
def raidsC6 : List Raid :=
  (List.range 10).map (fun i =>
    { rid := i, timestamp := (i : Int) * 1000 + 1000000, totalPoints := some 100000,
      completionTime := "", scale := "", uniqueDrop := "", players := [],
      sheetRow := some (i + 2), addedToSheet := true })

/-- A score event used to trigger the eleventh record creation. -/
def ceC6 : ScoreEvent :=
  { timestamp := 1010000, totalPoints := 100000, raidTime := none, players := [] }

/-- A persisted record within tolerance of the witness queries below. -/
def rW4 : Raid :=
  { rid := 0, timestamp := 1000000, totalPoints := some 291233, completionTime := "",
    scale := "", uniqueDrop := "", players := [], sheetRow := some 2, addedToSheet := true }

/-- A state holding the full ten-record registry. -/
def sC6 : St := { St.init with raids := raidsC6, nextRid := 10 }

/-- A loot event arriving 20s after the aged orphan above. -/
def leW : LootEvent :=
  { timestamp := 20000, itemName := "Twisted bow", playerName := none }

/-- A score event arriving 1s after the small-scale duration orphan. -/
def ceC7 : ScoreEvent :=
  { timestamp := 5000, totalPoints := 250000, raidTime := none,
    players := [{ name := "Hyperr", points := 94987 }] }

/-- The record the event above creates: it has absorbed the orphan's
duration and its small scale. -/
def rC7out : Raid :=
  { rid := 0, timestamp := 5000, totalPoints := some 250000,
    completionTime := "30:00.00", scale := "8-10", uniqueDrop := "",
    players := [{ name := "Hyperr", points := 94987 }], sheetRow := none,
    addedToSheet := false }

/-- A fresh record with an unknown (empty) team size. -/
def rPass : Raid :=
  { rid := 0, timestamp := 0, totalPoints := some 100000, completionTime := "",
    scale := "", uniqueDrop := "", players := [], sheetRow := none,
    addedToSheet := false }

/-- The indices of the qualifying loot orphans in descending order, from
base index `n` (the proof-side characterization of the collected indices). -/
def descIdxFrom (rt : Int) : Nat → List LootOrphan → List Nat
  | _, [] => []
  | n, o :: rest =>
      descIdxFrom rt (n + 1) rest ++ (if lootQualifies rt o then [n] else [])

/-- The record that orphan reconciliation is run against in the C2 witness. -/
def rC2 : Raid :=
  { rid := 0, timestamp := 5000, totalPoints := some 291233, completionTime := "",
    scale := "", uniqueDrop := "",
    players := [{ name := "Hyperr", points := 94987 }], sheetRow := none,
    addedToSheet := false }

/-- How an event application can change a record's `totalPoints`: every
record of the new registry either descends from an old record with the same
identity — keeping its totalPoints, or promoting a null one to a non-null
value — or is the freshly created record (identity `fresh`), whose
totalPoints is non-null. -/
def tpEvolves (old : List Raid) (fresh : Nat) (new : List Raid) : Prop :=
  ∀ r' ∈ new,
    (∃ r ∈ old, r.rid = r'.rid ∧
      (r'.totalPoints = r.totalPoints ∨
        (r.totalPoints = none ∧ r'.totalPoints.isSome))) ∨
    (r'.rid = fresh ∧ r'.totalPoints.isSome)

/-- A persisted single-record registry entry holding the first event's
total. -/
def rW3 : Raid :=
  { rid := 0, timestamp := 1000000, totalPoints := some 291233, completionTime := "",
    scale := "", uniqueDrop := "",
    players := [{ name := "Hyperr", points := 94987 }], sheetRow := some 7,
    addedToSheet := true }

/-- The state after the first score event of the C3 scenario was persisted. -/
def sW3 : St := { St.init with raids := [rW3], nextRid := 1 }

/-- The single-record correlation invariant: the registry holds exactly one
record, created by the sequence's first event (identity 0, its timestamp and
total), whose participants are `ps`; the next identity is 1. -/
def C5Inv (e0 : ScoreEvent) (ps : List Player) (st : St) : Prop :=
  ∃ r : Raid, st.raids = [r] ∧ r.rid = 0 ∧ r.timestamp = e0.timestamp ∧
    r.totalPoints = some e0.totalPoints ∧ r.players = ps ∧ st.nextRid = 1

/-- The record above after the second score event added its participant. -/
def rW3out : Raid :=
  { rid := 0, timestamp := 1000000, totalPoints := some 291233, completionTime := "",
    scale := "", uniqueDrop := "",
    players := [{ name := "Hyperr", points := 94987 },
                { name := "rg44", points := 94394 }], sheetRow := some 7,
    addedToSheet := true }

/- ================================================================== -/
/- Gateway lemmas                                                      -/
/- ================================================================== -/

theorem updateRowFuel_buffers (env : Env) (fuel : Nat) :
    ∀ (s : St) (now : Int) (rn : Nat) (row : List String) (rc : Nat),
      (updateRowFuel env fuel s now rn row rc).st.raids = s.raids ∧
      (updateRowFuel env fuel s now rn row rc).st.durations = s.durations ∧
      (updateRowFuel env fuel s now rn row rc).st.loots = s.loots ∧
      (updateRowFuel env fuel s now rn row rc).st.nextRid = s.nextRid := by
  induction fuel with
  | zero => intro s now rn row rc; simp [updateRowFuel]
  | succ n ih =>
      intro s now rn row rc
      simp only [updateRowFuel]
      cases env (if s.clientCached then s else { s with clientCached := true }).callCount <;>
        simp [ih] <;> split <;> simp [ih] <;> split <;> simp [ih]

theorem appendRowFuel_buffers (env : Env) (fuel : Nat) :
    ∀ (s : St) (now : Int) (row : List String) (rc : Nat),
      (appendRowFuel env fuel s now row rc).st.raids = s.raids ∧
      (appendRowFuel env fuel s now row rc).st.durations = s.durations ∧
      (appendRowFuel env fuel s now row rc).st.loots = s.loots ∧
      (appendRowFuel env fuel s now row rc).st.nextRid = s.nextRid := by
  induction fuel with
  | zero => intro s now row rc; simp [appendRowFuel]
  | succ n ih =>
      intro s now row rc
      simp only [appendRowFuel]
      cases env (if s.clientCached then s else { s with clientCached := true }).callCount <;>
        simp [ih] <;> split <;> simp [ih] <;> split <;> simp [ih]

theorem updateRow_buffers (env : Env) (s : St) (now : Int) (rn : Nat) (row : List String)
    (rc : Nat) :
    (updateRow env s now rn row rc).st.raids = s.raids ∧
    (updateRow env s now rn row rc).st.durations = s.durations ∧
    (updateRow env s now rn row rc).st.loots = s.loots ∧
    (updateRow env s now rn row rc).st.nextRid = s.nextRid :=
  updateRowFuel_buffers env _ s now rn row rc

theorem appendRow_buffers (env : Env) (s : St) (now : Int) (row : List String) (rc : Nat) :
    (appendRow env s now row rc).st.raids = s.raids ∧
    (appendRow env s now row rc).st.durations = s.durations ∧
    (appendRow env s now row rc).st.loots = s.loots ∧
    (appendRow env s now row rc).st.nextRid = s.nextRid :=
  appendRowFuel_buffers env _ s now row rc

theorem appendRow_res_ok (env : Env) (s : St) (now : Int) (row : List String)
    (henv : EnvHealthy env) : ∃ r, (appendRow env s now row 0).res = .ok r := by
  obtain ⟨r, hr⟩ :=
    henv (if s.clientCached then s else { s with clientCached := true }).callCount
  refine ⟨r, ?_⟩
  have h4 : MAX_RETRIES + 1 - 0 = 4 := by decide
  rw [appendRow, h4]
  simp only [appendRowFuel, hr]

theorem updateRow_res_ok (env : Env) (s : St) (now : Int) (rn : Nat) (row : List String)
    (henv : EnvHealthy env) : (updateRow env s now rn row 0).res = .ok () := by
  obtain ⟨r, hr⟩ :=
    henv (if s.clientCached then s else { s with clientCached := true }).callCount
  have h4 : MAX_RETRIES + 1 - 0 = 4 := by decide
  rw [updateRow, h4]
  simp only [updateRowFuel, hr]

/- ================================================================== -/
/- C8: persistence retry contract                                      -/
/- ================================================================== -/

/-- C8 counterexample: the claim says that on an authentication error
*both* operations invalidate the cached sheets client and retry
initialization up to 3 times.  `updateRow`'s catch block has no
authentication branch: with a cached client and an authentication failure it
issues exactly one API call, keeps the cached client and surfaces the error
immediately, with no `initClient` retry. -/
theorem c8_counterexample :
    (updateRow envAuth sGw 1000000 5 ["row"] 0).res = .error "auth error" ∧
    (updateRow envAuth sGw 1000000 5 ["row"] 0).st.clientCached = true ∧
    (updateRow envAuth sGw 1000000 5 ["row"] 0).trace = [Action.apiUpdate 5 ["row"]] := by
  decide

/-- C8 (amended): both `appendRow` and `updateRow` wait out the shared 60s
cooldown before calling, and on rate-limit errors both record the cooldown
and retry with exponential backoff (2s, 4s, 8s) for up to 3 retries before
surfacing a fatal error; `appendRow` additionally handles authentication
errors by invalidating the cached client and re-initializing on each of up
to 3 retries, but `updateRow` surfaces an authentication error immediately,
after a single call, without invalidating the cached client. -/
theorem c8_theorem :
    (∀ (env : Env) (s : St) (now : Int) (rn : Nat) (row : List String),
      now - s.lastRateLimitError < RATE_LIMIT_COOLDOWN →
      (appendRow env s now row 0).trace.head? =
        some (Action.cooldownWait (cooldownLeft s now)) ∧
      (updateRow env s now rn row 0).trace.head? =
        some (Action.cooldownWait (cooldownLeft s now))) ∧
    ((appendRow envRL sGw 1000000 ["row"] 0).trace =
      [Action.apiAppend ["row"], Action.backoffWait 2000, Action.cooldownWait 58000,
       Action.apiAppend ["row"], Action.backoffWait 4000, Action.cooldownWait 56000,
       Action.apiAppend ["row"], Action.backoffWait 8000, Action.cooldownWait 52000,
       Action.apiAppend ["row"]] ∧
     (appendRow envRL sGw 1000000 ["row"] 0).res =
       .error "Failed to append row after 3 retries due to rate limiting" ∧
     (appendRow envRL sGw 1000000 ["row"] 0).st.callCount = 4) ∧
    ((updateRow envRL sGw 1000000 5 ["row"] 0).trace =
      [Action.apiUpdate 5 ["row"], Action.backoffWait 2000, Action.cooldownWait 58000,
       Action.apiUpdate 5 ["row"], Action.backoffWait 4000, Action.cooldownWait 56000,
       Action.apiUpdate 5 ["row"], Action.backoffWait 8000, Action.cooldownWait 52000,
       Action.apiUpdate 5 ["row"]] ∧
     (updateRow envRL sGw 1000000 5 ["row"] 0).res = .error "rate limit error" ∧
     (updateRow envRL sGw 1000000 5 ["row"] 0).st.callCount = 4) ∧
    ((appendRow envAuth sGw 1000000 ["row"] 0).trace =
      [Action.apiAppend ["row"], Action.backoffWait 2000, Action.initClient,
       Action.apiAppend ["row"], Action.backoffWait 2000, Action.initClient,
       Action.apiAppend ["row"], Action.backoffWait 2000, Action.initClient,
       Action.apiAppend ["row"]] ∧
     (appendRow envAuth sGw 1000000 ["row"] 0).res = .error "auth error" ∧
     (appendRow envAuth sGw 1000000 ["row"] 0).st.clientCached = false ∧
     (appendRow envAuth sGw 1000000 ["row"] 0).st.callCount = 4) ∧
    (∀ (env : Env) (s : St) (now : Int) (rn : Nat) (row : List String) (rc : Nat),
      s.clientCached = true → env s.callCount = .authError → rc ≤ MAX_RETRIES →
      (updateRow env s now rn row rc).res = .error "auth error" ∧
      (updateRow env s now rn row rc).st.clientCached = true ∧
      (updateRow env s now rn row rc).st.callCount = s.callCount + 1) := by
  refine ⟨?_, by decide, by decide, by decide, ?_⟩
  · intro env s now rn row h
    have h4 : MAX_RETRIES + 1 - 0 = 4 := by decide
    constructor
    · rw [appendRow, h4]
      cases henv : env (if s.clientCached then s else { s with clientCached := true }).callCount <;>
        simp [appendRowFuel, henv, h, MAX_RETRIES]
    · rw [updateRow, h4]
      cases henv : env (if s.clientCached then s else { s with clientCached := true }).callCount <;>
        simp [updateRowFuel, henv, h, MAX_RETRIES]
  · intro env s now rn row rc hc henv hrc
    obtain ⟨f, hf⟩ : ∃ f, MAX_RETRIES + 1 - rc = f + 1 := by
      refine ⟨MAX_RETRIES - rc, ?_⟩
      simp only [MAX_RETRIES] at *
      omega
    rw [updateRow, hf]
    simp [updateRowFuel, hc, henv]

/-- C8 witness: the amended theorem applied at concrete inputs: a state in
cooldown (1s after a rate-limit error) waits the remaining 59s, and a cached
client with an auth-failing store surfaces the error at once. -/
theorem c8_witness :
    (appendRow envOk { sGw with lastRateLimitError := 999000 } 1000000 ["row"] 0).trace.head? =
      some (Action.cooldownWait 59000) ∧
    (updateRow envAuth sGw 1000000 5 ["row"] 1).res = .error "auth error" := by
  refine ⟨?_, ?_⟩
  · exact (c8_theorem.1 envOk { sGw with lastRateLimitError := 999000 } 1000000 5 ["row"]
      (by decide)).1
  · exact (c8_theorem.2.2.2.2 envAuth sGw 1000000 5 ["row"] 1 (by decide) (by decide)
      (by decide)).1

/- ================================================================== -/
/- C1: exception propagation of appendToSheet                          -/
/- ================================================================== -/

/-- C1 counterexample: the claim says `appendToSheet` never propagates an
exception for a recognized event type.  A points event processed against a
store that rate-limits every call makes `appendRow` exhaust its retries, and
`appendToSheet`'s catch block rethrows, so the error escapes. -/
theorem c1_counterexample :
    Event.recognized (Event.points ce1) ∧
    (appendToSheet envRL St.init 1000000 (Event.points ce1)).res =
      .error "Failed to append row after 3 retries due to rate limiting" := by
  decide

theorem persistIfAdded_res_ok (env : Env) (s' : St) (now : Int) (raid : Raid)
    (elseTrace : List Action) {A : Type} (val : A) (henv : EnvHealthy env) :
    (persistIfAdded env s' now raid elseTrace val).res = .ok val := by
  unfold persistIfAdded
  split
  · have hu := updateRow_res_ok env s' now (raid.sheetRow.getD 0) (raidToRow raid) henv
    simp [hu]
  · rfl

theorem finishScorePath_ok (env : Env) (s : St) (now : Int) (raid : Raid)
    (henv : EnvHealthy env) : ∃ r, (finishScorePath env s now raid).res = .ok r := by
  unfold finishScorePath
  split
  · exact ⟨_, rfl⟩
  · split
    · obtain ⟨r, hr⟩ := appendRow_res_ok env s now (raidToRow raid) henv
      cases r <;> simp [hr]
    · exact ⟨_, persistIfAdded_res_ok env s now raid [] (some raid) henv⟩

theorem scoreExisting_ok (env : Env) (s : St) (now : Int) (data : ScoreEvent) (raid0 : Raid)
    (henv : EnvHealthy env) : ∃ r, (scoreExisting env s now data raid0).res = .ok r := by
  unfold scoreExisting
  repeat' first | split | dsimp only
  all_goals
    first
      | exact ⟨_, rfl⟩
      | exact ⟨_, persistIfAdded_res_ok env _ now _ _ _ henv⟩

theorem scoreNoMatch_ok (env : Env) (s : St) (now : Int) (data : ScoreEvent)
    (henv : EnvHealthy env) : ∃ r, (scoreNoMatch env s now data).res = .ok r := by
  unfold scoreNoMatch
  split
  · exact finishScorePath_ok env _ now _ henv
  · exact finishScorePath_ok env _ now _ henv

theorem handleRaidCompletion_ok (env : Env) (s : St) (now : Int) (data : ScoreEvent)
    (henv : EnvHealthy env) : ∃ r, (handleRaidCompletion env s now data).res = .ok r := by
  unfold handleRaidCompletion
  split
  · exact ⟨_, rfl⟩
  · dsimp only
    split
    · exact scoreExisting_ok env _ now data _ henv
    · exact scoreNoMatch_ok env _ now data henv

theorem durationBody_ok (env : Env) (s : St) (now : Int) (data : DurationEvent)
    (henv : EnvHealthy env) : (durationBody env s now data).res = .ok () := by
  unfold durationBody
  repeat' first | split | dsimp only
  all_goals first
    | rfl
    | exact persistIfAdded_res_ok env _ now _ _ _ henv

theorem lootBody_ok (env : Env) (s : St) (now : Int) (data : LootEvent)
    (henv : EnvHealthy env) : (lootBody env s now data).res = .ok () := by
  unfold lootBody
  repeat' first | split | dsimp only
  all_goals first
    | rfl
    | exact persistIfAdded_res_ok env _ now _ _ _ henv

/-- C1 (amended): `appendToSheet`'s catch block logs and *rethrows*, so an
exception escapes not only for an unrecognized event type but for any
handler failure (e.g. a persistence failure after retry exhaustion, as in
the counterexample).  When every store call succeeds, no exception escapes
for the three recognized types; an unknown type always throws. -/
theorem c1_theorem :
    (∀ (env : Env) (s : St) (now : Int) (ev : Event), EnvHealthy env → ev.recognized →
      (appendToSheet env s now ev).res = .ok ()) ∧
    (∀ (env : Env) (s : St) (now : Int) (t : String),
      (appendToSheet env s now (Event.unknown t)).res =
        .error ("Unknown data type: " ++ t)) := by
  constructor
  · intro env s now ev henv hrec
    cases ev with
    | points e =>
        obtain ⟨r, hr⟩ := handleRaidCompletion_ok env s now e henv
        simp [appendToSheet, hr]
    | duration e =>
        simpa [appendToSheet, handleDurationUpdate] using
          durationBody_ok env (cleanOrphans s now) now e henv
    | loot e =>
        simpa [appendToSheet, handleLootDrop] using
          lootBody_ok env (cleanOrphans s now) now e henv
    | unknown t => exact absurd hrec (by simp [Event.recognized])
  · intro env s now t
    rfl

/-- C1 witness: the amended theorem applied to the scenario score event
against an always-successful store, and to an unknown event type. -/
theorem c1_witness :
    (appendToSheet envOk St.init 1000000 (Event.points ce1)).res = .ok () ∧
    (appendToSheet envOk St.init 1000000 (Event.unknown "foo")).res =
      .error "Unknown data type: foo" := by
  constructor
  · exact c1_theorem.1 envOk St.init 1000000 (Event.points ce1)
      (fun k => ⟨none, rfl⟩) trivial
  · exact c1_theorem.2 envOk St.init 1000000 "foo"

/- ================================================================== -/
/- C4: findRaidByTotalPoints                                           -/
/- ================================================================== -/

/-- C4 counterexample: the claim says that for a non-null query the function
returns a record satisfying `|record.totalPoints - points| <= 500` (and
nothing when no record does).  A placeholder record has no `totalPoints` at
all, yet the JS arithmetic coerces `null` to 0, so it is returned for the
query `points = 100` even though it satisfies neither reading of the claim's
condition. -/
theorem c4_counterexample :
    findRaidByTotalPoints [rC4] (some 100) 100000 = some rC4 ∧
    rC4.totalPoints = none := by
  decide

theorem findRaidRev_none_char (now : Int) :
    ∀ l : List Raid,
      match findRaidRev l none now with
      | some r => ∃ l₁ l₂, l = l₁ ++ r :: l₂ ∧ raidQualNull now r ∧
          ∀ x ∈ l₁, ¬ raidQualNull now x
      | none => ∀ r ∈ l, ¬ raidQualNull now r := by
  intro l
  induction l with
  | nil => simp [findRaidRev]
  | cons r rest ih =>
      by_cases h : r.totalPoints = none ∧ now - r.timestamp ≤ FIND_TIME_WINDOW
      · have hcond : findRaidRev (r :: rest) none now = some r := by
          simp only [findRaidRev]
          rw [if_pos h]
        rw [hcond]
        exact ⟨[], rest, rfl, h, by simp⟩
      · have hcond : findRaidRev (r :: rest) none now = findRaidRev rest none now := by
          simp only [findRaidRev]
          rw [if_neg h]
        rw [hcond]
        cases hfind : findRaidRev rest none now with
        | some r' =>
            rw [hfind] at ih
            obtain ⟨l₁, l₂, hl, hq, hall⟩ := ih
            refine ⟨r :: l₁, l₂, by simp [hl], hq, ?_⟩
            intro x hx
            rcases List.mem_cons.mp hx with hx | hx
            · subst hx; exact h
            · exact hall x hx
        | none =>
            rw [hfind] at ih
            intro x hx
            rcases List.mem_cons.mp hx with hx | hx
            · subst hx; exact h
            · exact ih x hx

theorem findRaidRev_some_char (now points : Int) :
    ∀ l : List Raid, (∀ r ∈ l, r.totalPoints ≠ none) →
      match findRaidRev l (some points) now with
      | some r => ∃ l₁ l₂, l = l₁ ++ r :: l₂ ∧ raidQualPoints now points r ∧
          ∀ x ∈ l₁, ¬ raidQualPoints now points x
      | none => ∀ r ∈ l, ¬ raidQualPoints now points r := by
  intro l
  induction l with
  | nil => simp [findRaidRev]
  | cons r rest ih =>
      intro hnn
      obtain ⟨tp, htp⟩ : ∃ tp, r.totalPoints = some tp := by
        cases hcase : r.totalPoints with
        | none => exact absurd hcase (hnn r (by simp))
        | some v => exact ⟨v, rfl⟩
      have hqiff : ((r.totalPoints.getD 0 - points).natAbs ≤ POINTS_TOLERANCE ∧
          now - r.timestamp ≤ FIND_TIME_WINDOW) ↔ raidQualPoints now points r := by
        constructor
        · rintro ⟨h1, h2⟩
          have h1' : (tp - points).natAbs ≤ POINTS_TOLERANCE := by
            rw [htp] at h1
            simpa using h1
          exact ⟨⟨tp, htp, h1'⟩, h2⟩
        · rintro ⟨⟨tp', htp', h1⟩, h2⟩
          have he : tp' = tp := by
            rw [htp] at htp'
            exact (Option.some.inj htp').symm
          subst he
          refine ⟨?_, h2⟩
          rw [htp]
          simpa using h1
      by_cases h : raidQualPoints now points r
      · have hcond : findRaidRev (r :: rest) (some points) now = some r := by
          simp only [findRaidRev]
          rw [if_pos (hqiff.mpr h)]
        rw [hcond]
        exact ⟨[], rest, rfl, h, by simp⟩
      · have hcond : findRaidRev (r :: rest) (some points) now =
            findRaidRev rest (some points) now := by
          simp only [findRaidRev]
          rw [if_neg (fun hc => h (hqiff.mp hc))]
        rw [hcond]
        have ih' := ih (fun x hx => hnn x (List.mem_cons_of_mem r hx))
        cases hfind : findRaidRev rest (some points) now with
        | some r' =>
            rw [hfind] at ih'
            obtain ⟨l₁, l₂, hl, hq, hall⟩ := ih'
            refine ⟨r :: l₁, l₂, by simp [hl], hq, ?_⟩
            intro x hx
            rcases List.mem_cons.mp hx with hx | hx
            · subst hx; exact h
            · exact hall x hx
        | none =>
            rw [hfind] at ih'
            intro x hx
            rcases List.mem_cons.mp hx with hx | hx
            · subst hx; exact h
            · exact ih' x hx

/-- C4 (amended): restricted to registries without placeholder records (all
reachable registries), `findRaidByTotalPoints(points)` returns the most
recent record within the 500-point tolerance and the 120s window — the scan
is most-recent-first and the first qualifying record wins — and returns
nothing when no record qualifies; the `points = null` lookup returns the
most recent placeholder inside the window unconditionally.  (On a registry
holding a placeholder record, the JS arithmetic coerces its null total to 0,
so the placeholder can be returned for a non-null query, as the
counterexample shows; the original claim's universal quantification over
registry states therefore fails.) -/
theorem c4_theorem :
    (∀ (raids : List Raid) (now : Int),
      match findRaidByTotalPoints raids none now with
      | some r => ∃ l₁ l₂, raids = l₁ ++ r :: l₂ ∧ raidQualNull now r ∧
          ∀ x ∈ l₂, ¬ raidQualNull now x
      | none => ∀ r ∈ raids, ¬ raidQualNull now r) ∧
    (∀ (raids : List Raid) (points now : Int),
      (∀ r ∈ raids, r.totalPoints ≠ none) →
      match findRaidByTotalPoints raids (some points) now with
      | some r => ∃ l₁ l₂, raids = l₁ ++ r :: l₂ ∧ raidQualPoints now points r ∧
          ∀ x ∈ l₂, ¬ raidQualPoints now points x
      | none => ∀ r ∈ raids, ¬ raidQualPoints now points r) := by
  constructor
  · intro raids now
    have h := findRaidRev_none_char now raids.reverse
    rw [findRaidByTotalPoints]
    cases hfind : findRaidRev raids.reverse none now with
    | some r =>
        rw [hfind] at h
        obtain ⟨l₁, l₂, hl, hq, hall⟩ := h
        refine ⟨l₂.reverse, l₁.reverse, ?_, hq, ?_⟩
        · have : raids.reverse.reverse = (l₁ ++ r :: l₂).reverse := by rw [hl]
          simpa [List.reverse_append] using this
        · intro x hx
          exact hall x (by simpa using hx)
    | none =>
        rw [hfind] at h
        intro r hr
        exact h r (by simpa using hr)
  · intro raids points now hnn
    have h := findRaidRev_some_char now points raids.reverse
      (fun r hr => hnn r (by simpa using hr))
    rw [findRaidByTotalPoints]
    cases hfind : findRaidRev raids.reverse (some points) now with
    | some r =>
        rw [hfind] at h
        obtain ⟨l₁, l₂, hl, hq, hall⟩ := h
        refine ⟨l₂.reverse, l₁.reverse, ?_, hq, ?_⟩
        · have : raids.reverse.reverse = (l₁ ++ r :: l₂).reverse := by rw [hl]
          simpa [List.reverse_append] using this
        · intro x hx
          exact hall x (by simpa using hx)
    | none =>
        rw [hfind] at h
        intro r hr
        exact h r (by simpa using hr)

/-- C4 witness: the amended characterization applied to a one-record
placeholder-free registry and a query 33 points away. -/
theorem c4_witness :
    match findRaidByTotalPoints [rW4] (some 291200) 1000000 with
    | some r => ∃ l₁ l₂, ([rW4] : List Raid) = l₁ ++ r :: l₂ ∧
        raidQualPoints 1000000 291200 r ∧ ∀ x ∈ l₂, ¬ raidQualPoints 1000000 291200 x
    | none => ∀ r ∈ ([rW4] : List Raid), ¬ raidQualPoints 1000000 291200 r :=
  c4_theorem.2 [rW4] 291200 1000000 (by decide)

/- ================================================================== -/
/- C6: registry capacity and eviction                                  -/
/- ================================================================== -/

theorem createRaidEntry_raids (data : ScoreEvent) (s : St) (now : Int) :
    (createRaidEntry data s now).1.raids =
      (if MAX_RAID_HISTORY < (s.raids ++ [(createRaidEntry data s now).2]).length
       then (s.raids ++ [(createRaidEntry data s now).2]).tail
       else s.raids ++ [(createRaidEntry data s now).2]).dropWhile
        (fun r => r.timestamp < now - RAID_TIMEOUT) := rfl

theorem createRaidEntry_timestamp (data : ScoreEvent) (s : St) (now : Int) :
    (createRaidEntry data s now).2.timestamp = data.timestamp := rfl

theorem mem_dropWhile_ts (c : Int) :
    ∀ l : List Raid, l.Pairwise (fun a b => a.timestamp ≤ b.timestamp) →
      ∀ r ∈ l.dropWhile (fun r => r.timestamp < c), c ≤ r.timestamp := by
  intro l
  induction l with
  | nil => simp
  | cons x xs ih =>
      intro hp r hr
      rw [List.dropWhile_cons] at hr
      by_cases hx : x.timestamp < c
      · simp [hx] at hr
        exact ih (List.Pairwise.of_cons hp) r hr
      · simp [hx] at hr
        rcases hr with rfl | hr
        · exact le_of_not_lt hx
        · have hxy := (List.pairwise_cons.mp hp).1 r hr
          have hcx := le_of_not_lt hx
          omega

/-- C6: on every creation, `createRaidEntry` keeps the registry at no more
than ten records; when the registry already holds ten, the oldest record is
dropped (strict FIFO by position, with no look at its persisted state) and
the age eviction then prunes expired records from the oldest end; insertion
order — hence creation order for monotone event timestamps — is preserved,
and (for a fresh event) every surviving record is younger than the 5-minute
TTL. -/
theorem c6_theorem :
    ∀ (data : ScoreEvent) (s : St) (now : Int),
      s.raids.length ≤ MAX_RAID_HISTORY →
      (createRaidEntry data s now).1.raids.length ≤ MAX_RAID_HISTORY ∧
      (s.raids.length = MAX_RAID_HISTORY →
        (createRaidEntry data s now).1.raids =
          (s.raids.tail ++ [(createRaidEntry data s now).2]).dropWhile
            (fun r => r.timestamp < now - RAID_TIMEOUT)) ∧
      (s.raids.Pairwise (fun a b => a.timestamp ≤ b.timestamp) →
        (∀ r ∈ s.raids, r.timestamp ≤ data.timestamp) →
        (createRaidEntry data s now).1.raids.Pairwise
          (fun a b => a.timestamp ≤ b.timestamp) ∧
        (now - data.timestamp ≤ RAID_TIMEOUT →
          ∀ r ∈ (createRaidEntry data s now).1.raids, now - r.timestamp ≤ RAID_TIMEOUT)) := by
  intro data s now hlen
  have hchar := createRaidEntry_raids data s now
  have hts := createRaidEntry_timestamp data s now
  refine ⟨?_, ?_, ?_⟩
  · rw [hchar]
    by_cases hif : MAX_RAID_HISTORY < (s.raids ++ [(createRaidEntry data s now).2]).length
    · rw [if_pos hif]
      have hle : (((s.raids ++ [(createRaidEntry data s now).2]).tail).dropWhile
          (fun r => r.timestamp < now - RAID_TIMEOUT)).length ≤
          ((s.raids ++ [(createRaidEntry data s now).2]).tail).length :=
        (List.dropWhile_sublist _).length_le
      simp only [List.length_tail, List.length_append, List.length_singleton] at hle
      omega
    · rw [if_neg hif]
      have hle : ((s.raids ++ [(createRaidEntry data s now).2]).dropWhile
          (fun r => r.timestamp < now - RAID_TIMEOUT)).length ≤
          (s.raids ++ [(createRaidEntry data s now).2]).length :=
        (List.dropWhile_sublist _).length_le
      simp only [List.length_append, List.length_singleton] at hif hle
      omega
  · intro h10
    rw [hchar]
    have hif : MAX_RAID_HISTORY < (s.raids ++ [(createRaidEntry data s now).2]).length := by
      simp [h10]
    rw [if_pos hif]
    congr 1
    cases hcase : s.raids with
    | nil => rw [hcase] at h10; simp [MAX_RAID_HISTORY] at h10
    | cons x xs => simp [hcase]
  · intro hsor hle2
    have hpair : (s.raids ++ [(createRaidEntry data s now).2]).Pairwise
        (fun a b => a.timestamp ≤ b.timestamp) := by
      rw [List.pairwise_append]
      refine ⟨hsor, by simp, ?_⟩
      intro a ha b hb
      rw [List.mem_singleton] at hb
      subst hb
      rw [hts]
      exact hle2 a ha
    have hpair2 : (if MAX_RAID_HISTORY < (s.raids ++ [(createRaidEntry data s now).2]).length
        then (s.raids ++ [(createRaidEntry data s now).2]).tail
        else s.raids ++ [(createRaidEntry data s now).2]).Pairwise
        (fun a b => a.timestamp ≤ b.timestamp) := by
      split
      · exact hpair.sublist (List.tail_sublist _)
      · exact hpair
    constructor
    · rw [hchar]
      exact hpair2.sublist (List.dropWhile_sublist _)
    · intro hfresh r hr
      rw [hchar] at hr
      have := mem_dropWhile_ts (now - RAID_TIMEOUT) _ hpair2 r hr
      omega

/-- C6 witness: a full registry of ten records receives an eleventh
creation; the oldest record (id 0) is evicted even though it is persisted,
leaving the ten newest in creation order. -/
theorem c6_witness :
    (createRaidEntry ceC6 sC6 1010000).1.raids.length ≤ MAX_RAID_HISTORY ∧
    ((createRaidEntry ceC6 sC6 1010000).1.raids.map Raid.rid) =
      [1, 2, 3, 4, 5, 6, 7, 8, 9, 10] ∧
    (raidsC6.head?.map Raid.addedToSheet) = some true := by
  refine ⟨(c6_theorem ceC6 sC6 1010000 (by decide)).1, by decide, by decide⟩

/- ================================================================== -/
/- Structural lemmas on the handlers                                   -/
/- ================================================================== -/

theorem persistIfAdded_buffers (env : Env) (s' : St) (now : Int) (raid : Raid)
    (elseTrace : List Action) {A : Type} (val : A) :
    (persistIfAdded env s' now raid elseTrace val).st.raids = s'.raids ∧
    (persistIfAdded env s' now raid elseTrace val).st.durations = s'.durations ∧
    (persistIfAdded env s' now raid elseTrace val).st.loots = s'.loots ∧
    (persistIfAdded env s' now raid elseTrace val).st.nextRid = s'.nextRid := by
  unfold persistIfAdded
  split
  · exact updateRow_buffers env s' now (raid.sheetRow.getD 0) (raidToRow raid) 0
  · exact ⟨rfl, rfl, rfl, rfl⟩

theorem scoreExisting_orphans (env : Env) (s : St) (now : Int) (data : ScoreEvent)
    (raid0 : Raid) :
    (scoreExisting env s now data raid0).st.durations = s.durations ∧
    (scoreExisting env s now data raid0).st.loots = s.loots ∧
    (scoreExisting env s now data raid0).st.nextRid = s.nextRid := by
  unfold scoreExisting
  repeat' first | split | dsimp only
  all_goals first
    | exact ⟨rfl, rfl, rfl⟩
    | exact (persistIfAdded_buffers env _ now _ _ _).2

theorem foldl_eraseIdx_subset (idxs : List Nat) :
    ∀ (l : List LootOrphan) (y : LootOrphan),
      y ∈ idxs.foldl (fun acc i => acc.eraseIdx i) l → y ∈ l := by
  induction idxs with
  | nil => intro l y hy; exact hy
  | cons i is ih =>
      intro l y hy
      exact (List.eraseIdx_sublist l i).subset (ih (l.eraseIdx i) y hy)

theorem mergeOrphansWithRaid_state (s : St) (raid : Raid) :
    (mergeOrphansWithRaid s raid).1.raids = s.raids ∧
    (mergeOrphansWithRaid s raid).1.nextRid = s.nextRid ∧
    (∀ x ∈ (mergeOrphansWithRaid s raid).1.durations, x ∈ s.durations) ∧
    (∀ x ∈ (mergeOrphansWithRaid s raid).1.loots, x ∈ s.loots) := by
  unfold mergeOrphansWithRaid
  repeat' first | split | dsimp only
  all_goals
    refine ⟨rfl, rfl, ?_, ?_⟩
  all_goals
    intro x hx
  all_goals
    first
      | exact hx
      | exact (List.eraseIdx_sublist _ _).subset hx
      | exact foldl_eraseIdx_subset _ _ x hx

theorem finishScorePath_orphans (env : Env) (s : St) (now : Int) (raid : Raid) :
    (finishScorePath env s now raid).st.durations = s.durations ∧
    (finishScorePath env s now raid).st.loots = s.loots ∧
    (finishScorePath env s now raid).st.nextRid = s.nextRid := by
  unfold finishScorePath
  repeat' first | split | dsimp only
  all_goals first
    | exact ⟨rfl, rfl, rfl⟩
    | exact (persistIfAdded_buffers env _ now _ _ _).2
    | exact (appendRow_buffers env s now (raidToRow raid) 0).2

theorem scoreNoMatch_orphans (env : Env) (s : St) (now : Int) (data : ScoreEvent) :
    (∀ x ∈ (scoreNoMatch env s now data).st.durations, x ∈ s.durations) ∧
    (∀ x ∈ (scoreNoMatch env s now data).st.loots, x ∈ s.loots) := by
  unfold scoreNoMatch
  split
  · dsimp only
    constructor
    · intro x hx
      rw [(finishScorePath_orphans env _ now _).1] at hx
      exact hx
    · intro x hx
      rw [(finishScorePath_orphans env _ now _).2.1] at hx
      exact hx
  · dsimp only
    constructor
    · intro x hx
      rw [(finishScorePath_orphans env _ now _).1] at hx
      exact (mergeOrphansWithRaid_state (createRaidEntry data s now).1
        (createRaidEntry data s now).2).2.2.1 x hx
    · intro x hx
      rw [(finishScorePath_orphans env _ now _).2.1] at hx
      exact (mergeOrphansWithRaid_state (createRaidEntry data s now).1
        (createRaidEntry data s now).2).2.2.2 x hx

/- ================================================================== -/
/- C9: orphan TTL                                                      -/
/- ================================================================== -/

theorem filter_erase_of_not (p : DurationOrphan → Bool) (o : DurationOrphan)
    (hp : p o = false) :
    ∀ l : List DurationOrphan, (l.erase o).filter p = l.filter p := by
  intro l
  induction l with
  | nil => rfl
  | cons x xs ih =>
      by_cases hxo : x = o
      · subst hxo
        rw [List.erase_cons_head, List.filter_cons]
        simp [hp]
      · rw [List.erase_cons_tail (by simp [hxo]), List.filter_cons, List.filter_cons, ih]

theorem cleanOrphans_erase (s : St) (now : Int) (o : DurationOrphan)
    (h : o.timestamp < now - ORPHAN_TIMEOUT) :
    cleanOrphans { s with durations := s.durations.erase o } now = cleanOrphans s now := by
  unfold cleanOrphans
  have hp : (decide (now - ORPHAN_TIMEOUT ≤ o.timestamp)) = false := by
    simp only [decide_eq_false_iff_not, not_le]
    exact h
  dsimp only
  congr 1
  exact filter_erase_of_not (fun o' => decide (now - ORPHAN_TIMEOUT ≤ o'.timestamp)) o hp _

theorem mem_cleanOrphans_durations (s : St) (now : Int) :
    ∀ x ∈ (cleanOrphans s now).durations, now - ORPHAN_TIMEOUT ≤ x.timestamp := by
  intro x hx
  unfold cleanOrphans at hx
  simp only [List.mem_filter, decide_eq_true_eq] at hx
  exact hx.2

theorem durationBody_durations (env : Env) (s : St) (now : Int) (data : DurationEvent) :
    (durationBody env s now data).st.durations = s.durations ∨
    (durationBody env s now data).st.durations = s.durations ++ [durationOrphanOf data] := by
  unfold durationBody
  split
  · left
    dsimp only
    rw [(persistIfAdded_buffers env _ now _ _ _).2.1]
  · right
    rfl

theorem lootBody_durations (env : Env) (s : St) (now : Int) (data : LootEvent) :
    (lootBody env s now data).st.durations = s.durations := by
  unfold lootBody
  repeat' first | split | dsimp only
  all_goals first
    | rfl
    | exact (persistIfAdded_buffers env _ now _ _ _).2.1

theorem handleRaidCompletion_durations_sub (env : Env) (s : St) (now : Int)
    (data : ScoreEvent) (h : ¬ MAX_DATA_AGE < now - data.timestamp) :
    ∀ x ∈ (handleRaidCompletion env s now data).st.durations,
      x ∈ (cleanOrphans s now).durations := by
  unfold handleRaidCompletion
  rw [if_neg h]
  dsimp only
  split
  · intro x hx
    rw [(scoreExisting_orphans env _ now data _).1] at hx
    exact hx
  · intro x hx
    exact (scoreNoMatch_orphans env _ now data).1 x hx

/-- C9: a DurationOrphan buffered at time t has no influence on any event
processed at t + 10001ms or later — the run coincides, in registry, loot
buffer, gateway trace and result, with a run from which the orphan was
already deleted — because every handler purges expired orphans before any
orphan matching; moreover the orphan is gone from the buffer afterwards,
except for a stale score event (which is dropped before the purge and
touches nothing at all). -/
theorem c9_theorem :
    ∀ (env : Env) (s : St) (now : Int) (ev : Event) (o : DurationOrphan),
      ev.recognized →
      o ∈ s.durations →
      o.timestamp + ORPHAN_TIMEOUT + 1 ≤ now →
      ((appendToSheet env s now ev).st.raids =
         (appendToSheet env { s with durations := s.durations.erase o } now ev).st.raids ∧
       (appendToSheet env s now ev).st.loots =
         (appendToSheet env { s with durations := s.durations.erase o } now ev).st.loots ∧
       (appendToSheet env s now ev).trace =
         (appendToSheet env { s with durations := s.durations.erase o } now ev).trace ∧
       (appendToSheet env s now ev).res =
         (appendToSheet env { s with durations := s.durations.erase o } now ev).res) ∧
      ((∀ e, ev = Event.points e → now - e.timestamp ≤ MAX_DATA_AGE) →
       (∀ e, ev = Event.duration e → durationOrphanOf e ≠ o) →
       o ∉ (appendToSheet env s now ev).st.durations) := by
  intro env s now ev o hrec ho hage
  have hold : o.timestamp < now - ORPHAN_TIMEOUT := by omega
  have hclean := cleanOrphans_erase s now o hold
  cases ev with
  | unknown t => exact absurd hrec (by simp [Event.recognized])
  | duration e =>
      constructor
      · have heq : appendToSheet env s now (Event.duration e) =
            appendToSheet env { s with durations := s.durations.erase o } now
              (Event.duration e) := by
          simp only [appendToSheet, handleDurationUpdate]
          rw [hclean]
        rw [heq]
        exact ⟨rfl, rfl, rfl, rfl⟩
      · intro _ hdur hmem
        have hst : (appendToSheet env s now (Event.duration e)).st.durations =
            (durationBody env (cleanOrphans s now) now e).st.durations := rfl
        rw [hst] at hmem
        rcases durationBody_durations env (cleanOrphans s now) now e with hcase | hcase
        · rw [hcase] at hmem
          have := mem_cleanOrphans_durations s now o hmem
          omega
        · rw [hcase] at hmem
          rcases List.mem_append.mp hmem with hmem | hmem
          · have := mem_cleanOrphans_durations s now o hmem
            omega
          · rw [List.mem_singleton] at hmem
            exact hdur e rfl hmem.symm
  | loot e =>
      constructor
      · have heq : appendToSheet env s now (Event.loot e) =
            appendToSheet env { s with durations := s.durations.erase o } now
              (Event.loot e) := by
          simp only [appendToSheet, handleLootDrop]
          rw [hclean]
        rw [heq]
        exact ⟨rfl, rfl, rfl, rfl⟩
      · intro _ _ hmem
        have hst : (appendToSheet env s now (Event.loot e)).st.durations =
            (lootBody env (cleanOrphans s now) now e).st.durations := rfl
        rw [hst, lootBody_durations] at hmem
        have := mem_cleanOrphans_durations s now o hmem
        omega
  | points e =>
      by_cases hstale : MAX_DATA_AGE < now - e.timestamp
      · constructor
        · have h1 : appendToSheet env s now (Event.points e) =
              { st := s, trace := [], res := .ok () } := by
            simp [appendToSheet, handleRaidCompletion, hstale]
          have h2 : appendToSheet env { s with durations := s.durations.erase o } now
              (Event.points e) =
              { st := { s with durations := s.durations.erase o }, trace := [],
                res := .ok () } := by
            simp [appendToSheet, handleRaidCompletion, hstale]
          rw [h1, h2]
          exact ⟨rfl, rfl, rfl, rfl⟩
        · intro hfresh _
          have := hfresh e rfl
          omega
      · constructor
        · have heq : appendToSheet env s now (Event.points e) =
              appendToSheet env { s with durations := s.durations.erase o } now
                (Event.points e) := by
            simp only [appendToSheet, handleRaidCompletion]
            rw [if_neg hstale, if_neg hstale, hclean]
          rw [heq]
          exact ⟨rfl, rfl, rfl, rfl⟩
        · intro _ _ hmem
          have hst : (appendToSheet env s now (Event.points e)).st.durations =
              (handleRaidCompletion env s now e).st.durations := rfl
          rw [hst] at hmem
          have := mem_cleanOrphans_durations s now o
            (handleRaidCompletion_durations_sub env s now e hstale o hmem)
          omega

/-- C9 witness: an orphan buffered at t = 0 is gone, unconsumed, after a
loot event processed at t = 20000. -/
theorem c9_witness :
    oD9 ∈ ({ St.init with durations := [oD9] } : St).durations ∧
    oD9 ∉ (appendToSheet envOk { St.init with durations := [oD9] } 20000
      (Event.loot leW)).st.durations := by
  refine ⟨by decide, ?_⟩
  exact (c9_theorem envOk { St.init with durations := [oD9] } 20000 (Event.loot leW) oD9
    trivial (by decide) (by decide)).2
    (fun e he => by simp at he) (fun e he => by simp at he)

/- ================================================================== -/
/- C7: team-size gate                                                  -/
/- ================================================================== -/

theorem findRaidRev_mem (q : Option Int) (now : Int) :
    ∀ (l : List Raid) (r : Raid), findRaidRev l q now = some r → r ∈ l := by
  intro l
  induction l with
  | nil => intro r h; cases q <;> simp [findRaidRev] at h
  | cons x xs ih =>
      intro r h
      cases q with
      | some tp =>
          rw [findRaidRev] at h
          split at h
          · exact (Option.some.inj h) ▸ List.mem_cons_self x xs
          · exact List.mem_cons_of_mem x (ih r h)
      | none =>
          rw [findRaidRev] at h
          split at h
          · exact (Option.some.inj h) ▸ List.mem_cons_self x xs
          · exact List.mem_cons_of_mem x (ih r h)

theorem findRaidByTotalPoints_mem (raids : List Raid) (q : Option Int) (now : Int)
    (r : Raid) (h : findRaidByTotalPoints raids q now = some r) : r ∈ raids := by
  have := findRaidRev_mem q now raids.reverse r h
  simpa using this

theorem mem_dropWhile_of_neg (p : Raid → Bool) :
    ∀ (l : List Raid) (x : Raid), x ∈ l → p x = false → x ∈ l.dropWhile p := by
  intro l
  induction l with
  | nil => intro x hx; cases hx
  | cons y ys ih =>
      intro x hx hp
      rw [List.dropWhile_cons]
      by_cases hy : p y = true
      · rw [if_pos hy]
        rcases List.mem_cons.mp hx with rfl | hx
        · rw [hp] at hy; cases hy
        · exact ih x hx hp
      · rw [if_neg hy]
        exact hx

theorem createRaidEntry_snd_mem (data : ScoreEvent) (s : St) (now : Int)
    (hfresh : ¬ data.timestamp < now - RAID_TIMEOUT) :
    (createRaidEntry data s now).2 ∈ (createRaidEntry data s now).1.raids := by
  rw [createRaidEntry_raids]
  apply mem_dropWhile_of_neg
  · split
    next hcap =>
      cases hcase : s.raids with
      | nil =>
          rw [hcase] at hcap
          simp [MAX_RAID_HISTORY] at hcap
      | cons x xs => simp [hcase]
    next hcap => simp
  · rw [createRaidEntry_timestamp]
    simpa using hfresh

theorem applyLootMatches_fields (ms : List LootMatch) :
    ∀ r : Raid,
      (applyLootMatches ms r).rid = r.rid ∧
      (applyLootMatches ms r).timestamp = r.timestamp ∧
      (applyLootMatches ms r).totalPoints = r.totalPoints ∧
      (applyLootMatches ms r).completionTime = r.completionTime ∧
      (applyLootMatches ms r).scale = r.scale ∧
      (applyLootMatches ms r).players = r.players ∧
      (applyLootMatches ms r).sheetRow = r.sheetRow ∧
      (applyLootMatches ms r).addedToSheet = r.addedToSheet := by
  induction ms with
  | nil => intro r; exact ⟨rfl, rfl, rfl, rfl, rfl, rfl, rfl, rfl⟩
  | cons m msr ihm =>
      intro r
      simpa [applyLootMatches] using ihm _

theorem mergeOrphansWithRaid_raid_fields (s : St) (raid : Raid) :
    (mergeOrphansWithRaid s raid).2.1.rid = raid.rid ∧
    (mergeOrphansWithRaid s raid).2.1.timestamp = raid.timestamp ∧
    (mergeOrphansWithRaid s raid).2.1.totalPoints = raid.totalPoints ∧
    (mergeOrphansWithRaid s raid).2.1.players = raid.players ∧
    (mergeOrphansWithRaid s raid).2.1.sheetRow = raid.sheetRow ∧
    (mergeOrphansWithRaid s raid).2.1.addedToSheet = raid.addedToSheet := by
  unfold mergeOrphansWithRaid
  repeat' first | split | dsimp only
  all_goals
    first
      | exact ⟨rfl, rfl, rfl, rfl, rfl, rfl⟩
      | exact ⟨(applyLootMatches_fields _ _).1, (applyLootMatches_fields _ _).2.1,
          (applyLootMatches_fields _ _).2.2.1, (applyLootMatches_fields _ _).2.2.2.2.2.1,
          (applyLootMatches_fields _ _).2.2.2.2.2.2.1,
          (applyLootMatches_fields _ _).2.2.2.2.2.2.2⟩

theorem setRaid_self_mem (X : List Raid) (r : Raid)
    (h : ∃ x ∈ X, x.rid = r.rid) : r ∈ setRaid X r := by
  obtain ⟨x, hx, hrid⟩ := h
  unfold setRaid
  refine List.mem_map.mpr ⟨x, hx, ?_⟩
  rw [if_pos hrid]

theorem apiAppend_mem_appendRow (env : Env) (s : St) (now : Int) (row : List String) :
    Action.apiAppend row ∈ (appendRow env s now row 0).trace := by
  have h4 : MAX_RETRIES + 1 - 0 = 4 := by decide
  rw [appendRow, h4]
  rw [appendRowFuel]
  cases henv : env (if s.clientCached then s else { s with clientCached := true }).callCount <;>
    simp [henv] <;> split <;> simp

theorem finishScorePath_spec (env : Env) (s' : St) (now : Int) (rb : Raid)
    (hmem : rb ∈ s'.raids) :
    ∀ raid, (finishScorePath env s' now rb).res = Except.ok (some raid) →
      raid ∈ (finishScorePath env s' now rb).st.raids ∧
      (isScaleLargeEnough raid.scale = false →
        (finishScorePath env s' now rb).trace = []) := by
  intro raid
  unfold finishScorePath
  by_cases hg : isScaleLargeEnough rb.scale
  · rw [if_neg (by simp [hg])]
    by_cases hp : (rb.totalPoints.isSome && !rb.addedToSheet) = true
    · rw [if_pos hp]
      dsimp only
      cases hres : (appendRow env s' now (raidToRow rb) 0).res with
      | ok ro =>
          cases ro with
          | some rn =>
              dsimp only
              intro h
              have hraid : ({ rb with sheetRow := some rn, addedToSheet := true } : Raid)
                  = raid := Option.some.inj (Except.ok.inj h)
              subst hraid
              constructor
              · refine setRaid_self_mem _ _ ⟨rb, ?_, rfl⟩
                rw [(appendRow_buffers env s' now (raidToRow rb) 0).1]
                exact hmem
              · intro hfail
                rw [show ({ rb with sheetRow := some rn, addedToSheet := true } : Raid).scale
                    = rb.scale from rfl] at hfail
                rw [hfail] at hg
                exact absurd hg (by decide)
          | none =>
              dsimp only
              intro h
              have hraid : rb = raid := Option.some.inj (Except.ok.inj h)
              subst hraid
              constructor
              · rw [(appendRow_buffers env s' now (raidToRow rb) 0).1]
                exact hmem
              · intro hfail
                rw [hfail] at hg
                exact absurd hg (by decide)
      | error e' =>
          dsimp only
          intro h
          simp at h
    · rw [if_neg hp]
      unfold persistIfAdded
      by_cases hq : (rb.addedToSheet && optNatTruthy rb.sheetRow) = true
      · rw [if_pos hq]
        dsimp only
        cases hres : (updateRow env s' now (rb.sheetRow.getD 0) (raidToRow rb) 0).res with
        | ok u =>
            dsimp only
            intro h
            have hraid : rb = raid := Option.some.inj (Except.ok.inj h)
            subst hraid
            constructor
            · rw [(updateRow_buffers env s' now (rb.sheetRow.getD 0) (raidToRow rb) 0).1]
              exact hmem
            · intro hfail
              rw [hfail] at hg
              exact absurd hg (by decide)
        | error e' =>
            dsimp only
            intro h
            simp at h
      · rw [if_neg hq]
        intro h
        have hraid : rb = raid := Option.some.inj (Except.ok.inj h)
        subst hraid
        exact ⟨hmem, fun _ => rfl⟩
  · have hg' : isScaleLargeEnough rb.scale = false := by simpa using hg
    rw [if_pos (by simp [hg'])]
    intro h
    have hraid : rb = raid := Option.some.inj (Except.ok.inj h)
    subst hraid
    exact ⟨hmem, fun _ => rfl⟩

theorem placeholderMerge_rid (data : ScoreEvent) (ph : Raid) :
    (placeholderMerge data ph).rid = ph.rid := by
  unfold placeholderMerge
  repeat' first | split | dsimp only

/-- C7: the team-size gate of the score path's no-match branch.  The gate
fails exactly when the scale string has a parseable leading number below 10;
when it fails, the gate short-circuits the whole persist block — no append
and no update is issued, the gateway trace is empty — while the record
(created or placeholder-promoted earlier in the branch) stays in the
registry; an empty scale or one with no leading number passes the gate, and
a passing fresh record proceeds to an append call. -/
theorem c7_theorem :
    (∀ scale : String,
      isScaleLargeEnough scale = false ↔
        (scale ≠ "" ∧ leadingDigits scale ≠ [] ∧
          digitsToNat (leadingDigits scale) < MIN_TEAM_SIZE)) ∧
    (∀ (env : Env) (s : St) (now : Int) (raid : Raid),
      isScaleLargeEnough raid.scale = false →
      finishScorePath env s now raid = { st := s, trace := [], res := .ok (some raid) }) ∧
    (∀ (env : Env) (s : St) (now : Int) (raid : Raid),
      isScaleLargeEnough raid.scale = true →
      raid.totalPoints.isSome = true →
      raid.addedToSheet = false →
      Action.apiAppend (raidToRow raid) ∈ (finishScorePath env s now raid).trace) ∧
    (∀ (env : Env) (s : St) (now : Int) (e : ScoreEvent),
      now - e.timestamp ≤ MAX_DATA_AGE →
      findRaidByTotalPoints s.raids (some e.totalPoints) now = none →
      ∀ raid, (handleRaidCompletion env s now e).res = Except.ok (some raid) →
        raid ∈ (handleRaidCompletion env s now e).st.raids ∧
        (isScaleLargeEnough raid.scale = false →
          (handleRaidCompletion env s now e).trace = [])) := by
  refine ⟨?_, ?_, ?_, ?_⟩
  · intro scale
    unfold isScaleLargeEnough
    split
    · next hsc => simp [hsc]
    · next hsc =>
        dsimp only
        split
        · next hds => simp [hsc, hds]
        · next hds =>
            simp [hsc, hds, Nat.not_le, Nat.lt_iff_add_one_le]
  · intro env s now raid hfail
    unfold finishScorePath
    rw [if_pos (by simp [hfail])]
  · intro env s now raid hg hsome hadd
    unfold finishScorePath
    rw [if_neg (by simp [hg])]
    rw [if_pos (by simp [hsome, hadd])]
    dsimp only
    cases hres : (appendRow env s now (raidToRow raid) 0).res with
    | ok ro =>
        cases ro with
        | some rn =>
            dsimp only
            exact apiAppend_mem_appendRow env s now (raidToRow raid)
        | none =>
            dsimp only
            exact apiAppend_mem_appendRow env s now (raidToRow raid)
    | error e' =>
        dsimp only
        exact apiAppend_mem_appendRow env s now (raidToRow raid)
  · intro env s now e hfresh hnone raid
    have hA : MAX_DATA_AGE = 300000 := rfl
    have hB : RAID_TIMEOUT = 300000 := rfl
    unfold handleRaidCompletion
    rw [if_neg (by omega)]
    dsimp only
    have hnone' : findRaidByTotalPoints (cleanOrphans s now).raids (some e.totalPoints) now
        = none := hnone
    rw [hnone']
    unfold scoreNoMatch
    cases hph : findRaidByTotalPoints (cleanOrphans s now).raids none now with
    | some ph =>
        dsimp only
        refine finishScorePath_spec env _ now _ ?_ raid
        refine setRaid_self_mem _ _ ⟨ph, ?_, ?_⟩
        · exact findRaidByTotalPoints_mem _ _ _ _ hph
        · exact (placeholderMerge_rid e ph).symm
    | none =>
        dsimp only
        refine finishScorePath_spec env _ now _ ?_ raid
        refine setRaid_self_mem _ _ ⟨(createRaidEntry e (cleanOrphans s now) now).2, ?_, ?_⟩
        · rw [(mergeOrphansWithRaid_state _ _).1]
          exact createRaidEntry_snd_mem e (cleanOrphans s now) now (by omega)
        · exact ((mergeOrphansWithRaid_raid_fields _ _).1).symm

/-- C7 witness: a score event whose fresh record absorbs a duration orphan
with scale "8-10" is kept in the registry but triggers no gateway call at
all; a record with an empty scale and unset row proceeds to an append. -/
theorem c7_witness :
    ((handleRaidCompletion envOk sC7 5000 ceC7).trace = [] ∧
      rC7out ∈ (handleRaidCompletion envOk sC7 5000 ceC7).st.raids) ∧
    Action.apiAppend (raidToRow rPass) ∈ (finishScorePath envOk St.init 0 rPass).trace := by
  constructor
  · have h := (c7_theorem.2.2.2 envOk sC7 5000 ceC7 (by decide) (by decide))
      rC7out (by decide)
    exact ⟨h.2 (by decide), h.1⟩
  · exact c7_theorem.2.2.1 envOk St.init 0 rPass (by decide) (by decide) (by decide)

/- ================================================================== -/
/- C2: loot orphan reconciliation                                      -/
/- ================================================================== -/

theorem insertByDiff_perm (x : LootMatch) : ∀ l, List.Perm (insertByDiff x l) (x :: l) := by
  intro l
  induction l with
  | nil => exact List.Perm.refl _
  | cons y ys ih =>
      unfold insertByDiff
      split
      · exact (ih.cons y).trans (List.Perm.swap x y ys)
      · exact List.Perm.refl _

theorem foldl_insertByDiff_perm :
    ∀ (l acc : List LootMatch),
      List.Perm (l.foldl (fun acc x => insertByDiff x acc) acc) (acc ++ l) := by
  intro l
  induction l with
  | nil => intro acc; simp
  | cons x xs ih =>
      intro acc
      exact (ih (insertByDiff x acc)).trans
        (((insertByDiff_perm x acc).append_right xs).trans List.perm_middle.symm)

theorem sortByDiff_perm (l : List LootMatch) : List.Perm (sortByDiff l) l := by
  simpa [sortByDiff] using foldl_insertByDiff_perm l []

theorem insertDescNat_perm (x : Nat) : ∀ l, List.Perm (insertDescNat x l) (x :: l) := by
  intro l
  induction l with
  | nil => exact List.Perm.refl _
  | cons y ys ih =>
      unfold insertDescNat
      split
      · exact (ih.cons y).trans (List.Perm.swap x y ys)
      · exact List.Perm.refl _

theorem foldl_insertDescNat_perm :
    ∀ (l acc : List Nat),
      List.Perm (l.foldl (fun acc x => insertDescNat x acc) acc) (acc ++ l) := by
  intro l
  induction l with
  | nil => intro acc; simp
  | cons x xs ih =>
      intro acc
      exact (ih (insertDescNat x acc)).trans
        (((insertDescNat_perm x acc).append_right xs).trans List.perm_middle.symm)

theorem sortDescNat_perm (l : List Nat) : List.Perm (sortDescNat l) l := by
  simpa [sortDescNat] using foldl_insertDescNat_perm l []

theorem insertDescNat_sorted (x : Nat) :
    ∀ l, l.Pairwise (fun a b => b ≤ a) →
      (insertDescNat x l).Pairwise (fun a b => b ≤ a) := by
  intro l
  induction l with
  | nil => intro _; simp [insertDescNat]
  | cons y ys ih =>
      intro hp
      unfold insertDescNat
      split
      · next hxy =>
          refine List.pairwise_cons.mpr ⟨?_, ih (List.pairwise_cons.mp hp).2⟩
          intro z hz
          have hz' : z = x ∨ z ∈ ys := by
            simpa using (insertDescNat_perm x ys).mem_iff.mp hz
          rcases hz' with rfl | hz'
          · exact hxy
          · exact (List.pairwise_cons.mp hp).1 z hz'
      · next hxy =>
          refine List.pairwise_cons.mpr ⟨?_, hp⟩
          intro z hz
          rcases List.mem_cons.mp hz with rfl | hz
          · omega
          · have h1 := (List.pairwise_cons.mp hp).1 z hz
            omega

theorem foldl_insertDescNat_sorted :
    ∀ (l acc : List Nat), acc.Pairwise (fun a b => b ≤ a) →
      (l.foldl (fun acc x => insertDescNat x acc) acc).Pairwise (fun a b => b ≤ a) := by
  intro l
  induction l with
  | nil => intro acc h; exact h
  | cons x xs ih => intro acc h; exact ih _ (insertDescNat_sorted x acc h)

theorem sortDescNat_sorted (l : List Nat) :
    (sortDescNat l).Pairwise (fun a b => b ≤ a) :=
  foldl_insertDescNat_sorted l [] (by simp)

theorem sorted_desc_eq (l₁ l₂ : List Nat) (hp : List.Perm l₁ l₂)
    (h1 : l₁.Pairwise (fun a b => b ≤ a)) (h2 : l₂.Pairwise (fun a b => b ≤ a)) :
    l₁ = l₂ :=
  @List.eq_of_perm_of_sorted Nat (fun a b => b ≤ a)
    ⟨fun _ _ hab hba => le_antisymm hba hab⟩ _ _ hp h1 h2

theorem descIdxFrom_bound (rt : Int) :
    ∀ (l : List LootOrphan) (n : Nat), ∀ x ∈ descIdxFrom rt n l, n ≤ x := by
  intro l
  induction l with
  | nil => intro n x hx; cases hx
  | cons o rest ih =>
      intro n x hx
      rw [descIdxFrom] at hx
      rcases List.mem_append.mp hx with hx | hx
      · have := ih (n + 1) x hx
        omega
      · split at hx
        · rw [List.mem_singleton] at hx
          omega
        · cases hx

theorem descIdxFrom_sorted (rt : Int) :
    ∀ (l : List LootOrphan) (n : Nat),
      (descIdxFrom rt n l).Pairwise (fun a b => b ≤ a) := by
  intro l
  induction l with
  | nil => intro n; simp [descIdxFrom]
  | cons o rest ih =>
      intro n
      rw [descIdxFrom]
      rw [List.pairwise_append]
      refine ⟨ih (n + 1), ?_, ?_⟩
      · split <;> simp
      · intro a ha b hb
        have han := descIdxFrom_bound rt rest (n + 1) a ha
        have hbn : b = n := by
          split at hb
          · simpa using hb
          · cases hb
        omega

theorem collectFrom_map_idx (rt : Int) :
    ∀ (l : List LootOrphan) (n : Nat),
      ((l.enumFrom n).reverse.filterMap (fun p =>
        if lootQualifies rt p.2 then
          some (⟨p.1, p.2, rt - p.2.timestamp⟩ : LootMatch)
        else none)).map LootMatch.idx = descIdxFrom rt n l := by
  intro l
  induction l with
  | nil => intro n; rfl
  | cons o rest ih =>
      intro n
      show (((n, o) :: rest.enumFrom (n + 1)).reverse.filterMap _).map LootMatch.idx = _
      rw [List.reverse_cons, List.filterMap_append, List.map_append, ih (n + 1)]
      rw [descIdxFrom]
      congr 1
      by_cases hq : lootQualifies rt o
      · simp [hq]
      · simp [hq]

theorem collect_map_idx (rt : Int) (l : List LootOrphan) :
    (collectLootMatches l rt).map LootMatch.idx = descIdxFrom rt 0 l :=
  collectFrom_map_idx rt l 0

theorem collectFrom_mem (rt : Int) :
    ∀ (l : List LootOrphan) (n : Nat) (o : LootOrphan), o ∈ l →
      lootQualifies rt o = true →
      ∃ m ∈ (l.enumFrom n).reverse.filterMap (fun p =>
          if lootQualifies rt p.2 then
            some (⟨p.1, p.2, rt - p.2.timestamp⟩ : LootMatch)
          else none), m.orphan = o := by
  intro l
  induction l with
  | nil => intro n o ho; cases ho
  | cons o' rest ih =>
      intro n o ho hq
      rcases List.mem_cons.mp ho with rfl | ho
      · refine ⟨⟨n, o, rt - o.timestamp⟩, ?_, rfl⟩
        show _ ∈ (((n, o) :: rest.enumFrom (n + 1)).reverse.filterMap _)
        rw [List.reverse_cons, List.filterMap_append]
        refine List.mem_append.mpr (Or.inr ?_)
        simp [hq]
      · obtain ⟨m, hm, hmo⟩ := ih (n + 1) o ho hq
        refine ⟨m, ?_, hmo⟩
        show _ ∈ (((n, o') :: rest.enumFrom (n + 1)).reverse.filterMap _)
        rw [List.reverse_cons, List.filterMap_append]
        exact List.mem_append.mpr (Or.inl hm)

theorem collect_mem (rt : Int) (l : List LootOrphan) (o : LootOrphan) (ho : o ∈ l)
    (hq : lootQualifies rt o = true) :
    ∃ m ∈ collectLootMatches l rt, m.orphan = o :=
  collectFrom_mem rt l 0 o ho hq

theorem foldl_eraseIdx_shift (D : List Nat) :
    ∀ (x : LootOrphan) (t : List LootOrphan),
      (D.map (· + 1)).foldl (fun l i => l.eraseIdx i) (x :: t) =
        x :: D.foldl (fun l i => l.eraseIdx i) t := by
  induction D with
  | nil => intro x t; rfl
  | cons i is ih =>
      intro x t
      show (is.map (· + 1)).foldl (fun l i => l.eraseIdx i) ((x :: t).eraseIdx (i + 1)) = _
      rw [List.eraseIdx_cons_succ]
      exact ih x (t.eraseIdx i)

theorem descIdxFrom_shift (rt : Int) :
    ∀ (l : List LootOrphan) (n : Nat),
      descIdxFrom rt (n + 1) l = (descIdxFrom rt n l).map (· + 1) := by
  intro l
  induction l with
  | nil => intro n; rfl
  | cons o rest ih =>
      intro n
      rw [descIdxFrom, descIdxFrom, List.map_append, ih (n + 1)]
      congr 1
      split <;> rfl

theorem fold_erase_desc (rt : Int) :
    ∀ l : List LootOrphan,
      (descIdxFrom rt 0 l).foldl (fun acc i => acc.eraseIdx i) l =
        l.filter (fun o => !(lootQualifies rt o)) := by
  intro l
  induction l with
  | nil => rfl
  | cons o rest ih =>
      rw [descIdxFrom, descIdxFrom_shift rt rest 0, List.foldl_append,
        foldl_eraseIdx_shift, ih]
      by_cases hq : lootQualifies rt o
      · simp [hq]
      · simp [hq]

theorem sorted_removal (rt : Int) (l : List LootOrphan) :
    sortDescNat ((sortByDiff (collectLootMatches l rt)).map LootMatch.idx) =
      descIdxFrom rt 0 l := by
  apply sorted_desc_eq
  · refine (sortDescNat_perm _).trans ?_
    have h1 : List.Perm ((sortByDiff (collectLootMatches l rt)).map LootMatch.idx)
        ((collectLootMatches l rt).map LootMatch.idx) :=
      (sortByDiff_perm _).map LootMatch.idx
    rw [collect_map_idx rt l] at h1
    exact h1
  · exact sortDescNat_sorted _
  · exact descIdxFrom_sorted rt l 0

theorem isPrefixOf_self : ∀ l : List Char, l.isPrefixOf l = true := by
  intro l
  induction l with
  | nil => rfl
  | cons c t ih => simp [List.isPrefixOf, ih]

theorem isPrefixOf_append_of (b : List Char) :
    ∀ (n l : List Char), n.isPrefixOf l = true → n.isPrefixOf (l ++ b) = true := by
  intro n
  induction n with
  | nil =>
      intro l _
      cases l ++ b with
      | nil => rfl
      | cons c t => rfl
  | cons x xs ih =>
      intro l h
      cases l with
      | nil => simp [List.isPrefixOf] at h
      | cons y ys =>
          simp only [List.isPrefixOf, Bool.and_eq_true] at h ⊢
          exact ⟨h.1, ih ys h.2⟩

theorem charsHasSub_nil (hay : List Char) : charsHasSub hay [] = true := by
  cases hay with
  | nil => rfl
  | cons c t => simp [charsHasSub, List.isPrefixOf]

theorem charsHasSub_append_right (a b n : List Char) (h : charsHasSub b n = true) :
    charsHasSub (a ++ b) n = true := by
  induction a with
  | nil => exact h
  | cons c t ih => simp [charsHasSub, ih]

theorem charsHasSub_append_left (a : List Char) :
    ∀ (b n : List Char), charsHasSub a n = true → charsHasSub (a ++ b) n = true := by
  induction a with
  | nil =>
      intro b n h
      simp only [charsHasSub] at h
      rw [List.nil_append]
      rw [(by simpa using h : n = [])]
      exact charsHasSub_nil b
  | cons c t ih =>
      intro b n h
      simp only [charsHasSub, Bool.or_eq_true] at h
      rcases h with h | h
      · simp only [List.cons_append, charsHasSub, Bool.or_eq_true]
        exact Or.inl (isPrefixOf_append_of b n (c :: t) h)
      · simp only [List.cons_append, charsHasSub, Bool.or_eq_true]
        exact Or.inr (ih b n h)

theorem charsHasSub_self (l : List Char) : charsHasSub l l = true := by
  cases l with
  | nil => rfl
  | cons c t =>
      simp only [charsHasSub, Bool.or_eq_true]
      exact Or.inl (isPrefixOf_self (c :: t))

theorem toList_append (a b : String) : (a ++ b).toList = a.toList ++ b.toList := by
  simp [String.toList, String.data_append]

theorem strContains_appendDrop_self (u m : String) :
    strContains (appendDrop u m) m = true := by
  unfold appendDrop
  split
  · exact charsHasSub_self m.toList
  · unfold strContains
    rw [toList_append]
    exact charsHasSub_append_right _ _ _ (charsHasSub_self m.toList)

theorem strContains_appendDrop_mono (u m x : String) (h : strContains u x = true) :
    strContains (appendDrop u m) x = true := by
  unfold appendDrop
  split
  · next hu =>
      subst hu
      unfold strContains at h ⊢
      have hx : x.toList = [] := by simpa [charsHasSub] using h
      rw [hx]
      exact charsHasSub_nil _
  · unfold strContains at h ⊢
    rw [toList_append, toList_append]
    exact charsHasSub_append_left _ _ _
      (charsHasSub_append_left _ _ _ h)

theorem foldl_msg_contains (ms : List LootMatch) :
    ∀ (u0 : String) (m : LootMatch), m ∈ ms →
      strContains
        (ms.foldl (fun u m' =>
          appendDrop u (lootMessageOf m'.orphan.playerName m'.orphan.itemName)) u0)
        (lootMessageOf m.orphan.playerName m.orphan.itemName) = true := by
  induction ms with
  | nil => intro u0 m hm; cases hm
  | cons m0 rest ih =>
      intro u0 m hm
      have hmono : ∀ (u : String) (x : String), strContains u x = true →
          strContains (rest.foldl (fun u m' =>
            appendDrop u (lootMessageOf m'.orphan.playerName m'.orphan.itemName)) u) x
            = true := by
        clear hm ih
        induction rest with
        | nil => intro u x h; exact h
        | cons r rs ihr =>
            intro u x h
            exact ihr _ _ (strContains_appendDrop_mono _ _ _ h)
      rcases List.mem_cons.mp hm with rfl | hm
      · exact hmono _ _ (strContains_appendDrop_self u0 _)
      · exact ih _ m hm

theorem applyLootMatches_uniqueDrop (ms : List LootMatch) :
    ∀ r : Raid, (applyLootMatches ms r).uniqueDrop =
      ms.foldl (fun u m =>
        appendDrop u (lootMessageOf m.orphan.playerName m.orphan.itemName))
        r.uniqueDrop := by
  induction ms with
  | nil => intro r; rfl
  | cons m rest ih =>
      intro r
      exact ih _

/-- C2 counterexample: the claim says orphan reconciliation applies the
same dedup-by-participant rule as the normal loot path.  Two buffered loot
orphans with the same participant "Hyperr", both in the 0-3000ms window of
a freshly created record, are BOTH appended — the second is not dropped
even though "(Hyperr)" is already present in the summary — leaving two
entries for the same participant. -/
theorem c2_counterexample :
    ((appendToSheet envOk sC2 5000 (Event.points ceC2)).st.raids.map Raid.uniqueDrop) =
      ["(Hyperr) - Elder maul, (Hyperr) - Twisted bow"] ∧
    (appendToSheet envOk sC2 5000 (Event.points ceC2)).st.loots = [] := by
  decide

theorem lootPhase_none (rt : Int) (l : List LootOrphan)
    (h : sortByDiff (collectLootMatches l rt) = []) :
    ∀ o ∈ l, lootQualifies rt o = false := by
  have hc : collectLootMatches l rt = [] := by
    have hp := sortByDiff_perm (collectLootMatches l rt)
    rw [h] at hp
    exact hp.symm.eq_nil
  intro o ho
  cases hx : lootQualifies rt o with
  | false => rfl
  | true =>
      obtain ⟨m, hm, _⟩ := collect_mem rt l o ho hx
      rw [hc] at hm
      cases hm

theorem lootPhase_spec (rt : Int) (sBase : St) (u0 : String)
    (s1 : St) (raid1 : Raid) (m1 : Bool)
    (hl : s1.loots = sBase.loots) (hu : raid1.uniqueDrop = u0) :
    (if sortByDiff (collectLootMatches s1.loots rt) ≠ [] then
       ({ s1 with loots :=
           (sortDescNat ((sortByDiff (collectLootMatches s1.loots rt)).map
             LootMatch.idx)).foldl (fun l i => l.eraseIdx i) s1.loots },
        applyLootMatches (sortByDiff (collectLootMatches s1.loots rt)) raid1,
        true)
     else (s1, raid1, m1)).1.loots =
        sBase.loots.filter (fun o => !(lootQualifies rt o)) ∧
    (if sortByDiff (collectLootMatches s1.loots rt) ≠ [] then
       ({ s1 with loots :=
           (sortDescNat ((sortByDiff (collectLootMatches s1.loots rt)).map
             LootMatch.idx)).foldl (fun l i => l.eraseIdx i) s1.loots },
        applyLootMatches (sortByDiff (collectLootMatches s1.loots rt)) raid1,
        true)
     else (s1, raid1, m1)).2.1.uniqueDrop =
        (sortByDiff (collectLootMatches sBase.loots rt)).foldl
          (fun u m =>
            appendDrop u (lootMessageOf m.orphan.playerName m.orphan.itemName)) u0 ∧
    (∀ o ∈ sBase.loots, lootQualifies rt o = true →
      strContains
        (if sortByDiff (collectLootMatches s1.loots rt) ≠ [] then
           ({ s1 with loots :=
               (sortDescNat ((sortByDiff (collectLootMatches s1.loots rt)).map
                 LootMatch.idx)).foldl (fun l i => l.eraseIdx i) s1.loots },
            applyLootMatches (sortByDiff (collectLootMatches s1.loots rt)) raid1,
            true)
         else (s1, raid1, m1)).2.1.uniqueDrop
        (lootMessageOf o.playerName o.itemName) = true) := by
  by_cases hlm : sortByDiff (collectLootMatches s1.loots rt) ≠ []
  · rw [if_pos hlm]
    refine ⟨?_, ?_, ?_⟩
    · dsimp only
      rw [hl, sorted_removal]
      exact fold_erase_desc rt sBase.loots
    · dsimp only
      rw [applyLootMatches_uniqueDrop, hu, hl]
    · intro o ho hq
      dsimp only
      rw [applyLootMatches_uniqueDrop, hu, hl]
      obtain ⟨m, hm, hmo⟩ := collect_mem rt sBase.loots o ho hq
      have hm2 : m ∈ sortByDiff (collectLootMatches sBase.loots rt) :=
        (sortByDiff_perm _).mem_iff.mpr hm
      have hres := foldl_msg_contains _ u0 m hm2
      rw [hmo] at hres
      exact hres
  · rw [if_neg hlm]
    have hnil : sortByDiff (collectLootMatches sBase.loots rt) = [] := by
      rw [← hl]
      exact not_not.mp hlm
    have hq := lootPhase_none rt sBase.loots hnil
    refine ⟨?_, ?_, ?_⟩
    · dsimp only
      rw [hl]
      symm
      apply List.filter_eq_self.mpr
      intro o ho
      simp [hq o ho]
    · dsimp only
      rw [hu, hnil]
      rfl
    · intro o ho hq2
      rw [hq o ho] at hq2
      cases hq2

/-- C2 (amended): when a brand-new record is created, orphan reconciliation
consumes every loot orphan whose timestamp precedes the record's creation
time by 0-3000ms inclusive — the buffer afterwards is exactly the
non-qualifying orphans — and appends their messages to the record's loot
summary ordered by smallest delta first; but NO dedup-by-participant is
applied: every qualifying orphan's message ends up in the summary, even
when its participant already appears there. -/
theorem c2_theorem :
    ∀ (s : St) (raid : Raid),
      (mergeOrphansWithRaid s raid).1.loots =
        s.loots.filter (fun o => !(lootQualifies raid.timestamp o)) ∧
      (mergeOrphansWithRaid s raid).2.1.uniqueDrop =
        (sortByDiff (collectLootMatches s.loots raid.timestamp)).foldl
          (fun u m =>
            appendDrop u (lootMessageOf m.orphan.playerName m.orphan.itemName))
          raid.uniqueDrop ∧
      (∀ o ∈ s.loots, lootQualifies raid.timestamp o = true →
        strContains (mergeOrphansWithRaid s raid).2.1.uniqueDrop
          (lootMessageOf o.playerName o.itemName) = true) := by
  intro s raid
  unfold mergeOrphansWithRaid
  dsimp only
  refine lootPhase_spec raid.timestamp s raid.uniqueDrop _ _ _ ?_ ?_
  · repeat' first | split | dsimp only
  · repeat' first | split | dsimp only

/-- C2 witness: on the two-orphan buffer the reconciliation leaves exactly
the non-qualifying orphans (none) and the summary contains the message of a
qualifying orphan. -/
theorem c2_witness :
    ((mergeOrphansWithRaid sC2 rC2).1.loots =
      sC2.loots.filter (fun o => !(lootQualifies rC2.timestamp o))) ∧
    ∃ o, o ∈ sC2.loots ∧ lootQualifies rC2.timestamp o = true ∧
      strContains (mergeOrphansWithRaid sC2 rC2).2.1.uniqueDrop
        (lootMessageOf o.playerName o.itemName) = true := by
  obtain ⟨h1, _h2, h3⟩ := c2_theorem sC2 rC2
  refine ⟨h1, ?_⟩
  have hmem :
      ({ timestamp := 2500, itemName := "Twisted bow", playerName := some "Hyperr" } :
        LootOrphan) ∈ sC2.loots := by decide
  have hq :
      lootQualifies rC2.timestamp
        ({ timestamp := 2500, itemName := "Twisted bow", playerName := some "Hyperr" } :
          LootOrphan) = true := by decide
  exact ⟨_, hmem, hq, h3 _ hmem hq⟩

theorem setRaid_mem (raids : List Raid) (r : Raid) :
    ∀ x ∈ setRaid raids r, x ∈ raids ∨ x = r := by
  intro x hx
  obtain ⟨y, hy, hyx⟩ := List.mem_map.mp hx
  by_cases h : y.rid = r.rid
  · right
    rw [← hyx, if_pos h]
  · left
    rw [← hyx, if_neg h]
    exact hy

theorem persistIfAdded_raids (env : Env) (s' : St) (now : Int) (raid : Raid)
    (elseTrace : List Action) {A : Type} (val : A) :
    (persistIfAdded env s' now raid elseTrace val).st.raids = s'.raids :=
  (persistIfAdded_buffers env s' now raid elseTrace val).1

theorem findDurationTargetRev_mem :
    ∀ (l : List Raid) (now : Int) (r : Raid),
      findDurationTargetRev l now = some r → r ∈ l := by
  intro l
  induction l with
  | nil =>
      intro now r h
      exact Option.noConfusion h
  | cons x xs ih =>
      intro now r h
      rw [findDurationTargetRev] at h
      split at h
      · exact (Option.some.inj h) ▸ List.mem_cons_self x xs
      · exact List.mem_cons_of_mem x (ih now r h)

theorem findLootRaidRev1_mem :
    ∀ (l : List Raid) (pn : Option String) (now : Int) (r : Raid),
      findLootRaidRev1 l pn now = some r → r ∈ l := by
  intro l
  induction l with
  | nil =>
      intro pn now r h
      exact Option.noConfusion h
  | cons x xs ih =>
      intro pn now r h
      rw [findLootRaidRev1] at h
      split at h
      · exact (Option.some.inj h) ▸ List.mem_cons_self x xs
      · exact List.mem_cons_of_mem x (ih pn now r h)

theorem findLootRaidRev2_mem :
    ∀ (l : List Raid) (now : Int) (r : Raid),
      findLootRaidRev2 l now = some r → r ∈ l := by
  intro l
  induction l with
  | nil =>
      intro now r h
      exact Option.noConfusion h
  | cons x xs ih =>
      intro now r h
      rw [findLootRaidRev2] at h
      split at h
      · exact (Option.some.inj h) ▸ List.mem_cons_self x xs
      · exact List.mem_cons_of_mem x (ih now r h)

theorem findRaidForLoot_mem (raids : List Raid) (pn : Option String) (now : Int)
    (r : Raid) (h : findRaidForLoot raids pn now = some r) : r ∈ raids := by
  unfold findRaidForLoot at h
  cases h1 : findLootRaidRev1 raids.reverse pn now with
  | some x =>
      rw [h1] at h
      dsimp only at h
      have hx := findLootRaidRev1_mem raids.reverse pn now x h1
      rw [Option.some.inj h] at hx
      exact List.mem_reverse.mp hx
  | none =>
      rw [h1] at h
      dsimp only at h
      exact List.mem_reverse.mp (findLootRaidRev2_mem raids.reverse now r h)

theorem mem_of_mem_dropWhile (p : Raid → Bool) :
    ∀ (l : List Raid) (x : Raid), x ∈ l.dropWhile p → x ∈ l := by
  intro l
  induction l with
  | nil =>
      intro x hx
      exact hx
  | cons y ys ih =>
      intro x hx
      rw [List.dropWhile_cons] at hx
      split at hx
      · exact List.mem_cons_of_mem y (ih x hx)
      · exact hx

theorem createRaidEntry_mem (data : ScoreEvent) (s : St) (now : Int) :
    ∀ x ∈ (createRaidEntry data s now).1.raids,
      x ∈ s.raids ∨ x = (createRaidEntry data s now).2 := by
  intro x hx
  rw [createRaidEntry_raids] at hx
  have hx2 := mem_of_mem_dropWhile _ _ x hx
  have hx3 : x ∈ s.raids ++ [(createRaidEntry data s now).2] := by
    split at hx2
    · exact List.mem_of_mem_tail hx2
    · exact hx2
  rcases List.mem_append.mp hx3 with h | h
  · exact Or.inl h
  · exact Or.inr (List.mem_singleton.mp h)

theorem placeholderMerge_tp (data : ScoreEvent) (ph : Raid) :
    (placeholderMerge data ph).totalPoints = some data.totalPoints := by
  unfold placeholderMerge
  repeat' first | split | dsimp only

theorem findRaidNull_tp_none (raids : List Raid) (now : Int) (ph : Raid)
    (h : findRaidByTotalPoints raids none now = some ph) : ph.totalPoints = none := by
  have hch := findRaidRev_none_char now raids.reverse
  unfold findRaidByTotalPoints at h
  rw [h] at hch
  obtain ⟨l1, l2, _, hq, _⟩ := hch
  exact hq.1

theorem finishScorePath_tp (env : Env) (s : St) (now : Int) (raid : Raid) :
    ∀ r' ∈ (finishScorePath env s now raid).st.raids,
      r' ∈ s.raids ∨ (r'.rid = raid.rid ∧ r'.totalPoints = raid.totalPoints) := by
  intro r' hr'
  unfold finishScorePath at hr'
  split at hr'
  · exact Or.inl hr'
  · split at hr'
    · dsimp only at hr'
      split at hr'
      · dsimp only at hr'
        rw [(appendRow_buffers env s now (raidToRow raid) 0).1] at hr'
        rcases setRaid_mem _ _ r' hr' with h | h
        · exact Or.inl h
        · subst h
          exact Or.inr ⟨rfl, rfl⟩
      · dsimp only at hr'
        rw [(appendRow_buffers env s now (raidToRow raid) 0).1] at hr'
        exact Or.inl hr'
      · dsimp only at hr'
        rw [(appendRow_buffers env s now (raidToRow raid) 0).1] at hr'
        exact Or.inl hr'
    · rw [persistIfAdded_raids] at hr'
      exact Or.inl hr'

theorem scoreExisting_tp (env : Env) (s : St) (now : Int) (data : ScoreEvent)
    (raid0 : Raid) :
    ∀ r' ∈ (scoreExisting env s now data raid0).st.raids,
      r' ∈ s.raids ∨ (r'.rid = raid0.rid ∧
        (r'.totalPoints = raid0.totalPoints ∨
          (raid0.totalPoints = none ∧ r'.totalPoints.isSome))) := by
  intro r' hr'
  unfold scoreExisting at hr'
  dsimp only at hr'
  repeat' first | split at hr' | dsimp only at hr'
  all_goals (try rw [persistIfAdded_raids] at hr')
  all_goals (try dsimp only at hr')
  all_goals rcases setRaid_mem _ _ r' hr' with h | h
  all_goals first
    | exact Or.inl h
    | (subst h
       exact Or.inr ⟨rfl, Or.inl rfl⟩)
    | (subst h
       exact Or.inr ⟨rfl, Or.inr ⟨‹raid0.totalPoints = none›, rfl⟩⟩)

theorem scoreNoMatch_tp (env : Env) (s : St) (now : Int) (data : ScoreEvent) :
    tpEvolves s.raids s.nextRid (scoreNoMatch env s now data).st.raids := by
  intro r' hr'
  unfold scoreNoMatch at hr'
  cases hf : findRaidByTotalPoints s.raids none now with
  | some ph =>
      rw [hf] at hr'
      dsimp only at hr'
      have hphm := findRaidByTotalPoints_mem s.raids none now ph hf
      have hphn := findRaidNull_tp_none s.raids now ph hf
      rcases finishScorePath_tp env _ now _ r' hr' with h | ⟨hrid, htp⟩
      · dsimp only at h
        rcases setRaid_mem _ _ r' h with h2 | h2
        · exact Or.inl ⟨r', h2, rfl, Or.inl rfl⟩
        · refine Or.inl ⟨ph, hphm, ?_, Or.inr ⟨hphn, ?_⟩⟩
          · rw [h2, placeholderMerge_rid]
          · rw [h2, placeholderMerge_tp]
            rfl
      · refine Or.inl ⟨ph, hphm, ?_, Or.inr ⟨hphn, ?_⟩⟩
        · rw [hrid, placeholderMerge_rid]
        · rw [htp, placeholderMerge_tp]
          rfl
  | none =>
      rw [hf] at hr'
      dsimp only at hr'
      rcases finishScorePath_tp env _ now _ r' hr' with h | ⟨hrid, htp⟩
      · dsimp only at h
        rcases setRaid_mem _ _ r' h with h2 | h2
        · rw [(mergeOrphansWithRaid_state _ _).1] at h2
          rcases createRaidEntry_mem data s now r' h2 with h3 | h3
          · exact Or.inl ⟨r', h3, rfl, Or.inl rfl⟩
          · refine Or.inr ⟨?_, ?_⟩
            · rw [h3]
              rfl
            · rw [h3]
              rfl
        · refine Or.inr ⟨?_, ?_⟩
          · rw [h2, (mergeOrphansWithRaid_raid_fields _ _).1]
            rfl
          · rw [h2, (mergeOrphansWithRaid_raid_fields _ _).2.2.1]
            rfl
      · refine Or.inr ⟨?_, ?_⟩
        · rw [hrid, (mergeOrphansWithRaid_raid_fields _ _).1]
          rfl
        · rw [htp, (mergeOrphansWithRaid_raid_fields _ _).2.2.1]
          rfl

theorem handleRaidCompletion_tp (env : Env) (s : St) (now : Int) (data : ScoreEvent) :
    tpEvolves s.raids s.nextRid (handleRaidCompletion env s now data).st.raids := by
  intro r' hr'
  unfold handleRaidCompletion at hr'
  split at hr'
  · dsimp only at hr'
    exact Or.inl ⟨r', hr', rfl, Or.inl rfl⟩
  · dsimp only at hr'
    cases hf : findRaidByTotalPoints (cleanOrphans s now).raids (some data.totalPoints) now with
    | some raid0 =>
        rw [hf] at hr'
        dsimp only at hr'
        rcases scoreExisting_tp env (cleanOrphans s now) now data raid0 r' hr' with
          h | ⟨hrid, htp⟩
        · exact Or.inl ⟨r', h, rfl, Or.inl rfl⟩
        · exact Or.inl ⟨raid0,
            findRaidByTotalPoints_mem (cleanOrphans s now).raids (some data.totalPoints)
              now raid0 hf,
            hrid.symm, htp⟩
    | none =>
        rw [hf] at hr'
        dsimp only at hr'
        exact scoreNoMatch_tp env (cleanOrphans s now) now data r' hr'

theorem durationBody_tp (env : Env) (s : St) (now : Int) (data : DurationEvent) :
    ∀ r' ∈ (durationBody env s now data).st.raids,
      r' ∈ s.raids ∨ ∃ r ∈ s.raids, r.rid = r'.rid ∧ r'.totalPoints = r.totalPoints := by
  intro r' hr'
  unfold durationBody at hr'
  cases hf : findDurationTargetRev s.raids.reverse now with
  | some raid0 =>
      rw [hf] at hr'
      dsimp only at hr'
      rw [persistIfAdded_raids] at hr'
      dsimp only at hr'
      rcases setRaid_mem _ _ r' hr' with h | h
      · exact Or.inl h
      · subst h
        exact Or.inr ⟨raid0,
          List.mem_reverse.mp (findDurationTargetRev_mem _ now raid0 hf), rfl, rfl⟩
  | none =>
      rw [hf] at hr'
      dsimp only at hr'
      exact Or.inl hr'

theorem lootBody_tp (env : Env) (s : St) (now : Int) (data : LootEvent) :
    ∀ r' ∈ (lootBody env s now data).st.raids,
      r' ∈ s.raids ∨ ∃ r ∈ s.raids, r.rid = r'.rid ∧ r'.totalPoints = r.totalPoints := by
  intro r' hr'
  unfold lootBody at hr'
  dsimp only at hr'
  cases hf : findRaidForLoot s.raids data.playerName now with
  | none =>
      rw [hf] at hr'
      dsimp only at hr'
      exact Or.inl hr'
  | some raid0 =>
      rw [hf] at hr'
      dsimp only at hr'
      split at hr'
      · exact Or.inl hr'
      · try dsimp only at hr'
        rw [persistIfAdded_raids] at hr'
        dsimp only at hr'
        rcases setRaid_mem _ _ r' hr' with h | h
        · exact Or.inl h
        · subst h
          exact Or.inr ⟨raid0, findRaidForLoot_mem s.raids data.playerName now raid0 hf,
            rfl, rfl⟩

theorem appendToSheet_tp (env : Env) (s : St) (now : Int) (ev : Event) :
    tpEvolves s.raids s.nextRid (appendToSheet env s now ev).st.raids := by
  cases ev with
  | points e =>
      intro r' hr'
      exact handleRaidCompletion_tp env s now e r' hr'
  | duration e =>
      intro r' hr'
      rcases durationBody_tp env (cleanOrphans s now) now e r' hr' with
        h | ⟨r, hm, hrid, htp⟩
      · exact Or.inl ⟨r', h, rfl, Or.inl rfl⟩
      · exact Or.inl ⟨r, hm, hrid, Or.inl htp⟩
  | loot e =>
      intro r' hr'
      rcases lootBody_tp env (cleanOrphans s now) now e r' hr' with
        h | ⟨r, hm, hrid, htp⟩
      · exact Or.inl ⟨r', h, rfl, Or.inl rfl⟩
      · exact Or.inl ⟨r, hm, hrid, Or.inl htp⟩
  | unknown t =>
      intro r' hr'
      exact Or.inl ⟨r', hr', rfl, Or.inl rfl⟩

theorem findRaidRev_none_allSome :
    ∀ (l : List Raid) (now : Int), (∀ r ∈ l, r.totalPoints.isSome = true) →
      findRaidRev l none now = none := by
  intro l
  induction l with
  | nil =>
      intro now _
      rfl
  | cons r rest ih =>
      intro now hall
      have hne : ¬(r.totalPoints = none ∧ now - r.timestamp ≤ FIND_TIME_WINDOW) := by
        intro hc
        have hs := hall r (List.mem_cons_self r rest)
        rw [hc.1] at hs
        cases hs
      rw [findRaidRev]
      try dsimp only
      rw [if_neg hne]
      exact ih now (fun x hx => hall x (List.mem_cons_of_mem r hx))

/-- C10: in every reachable state every registry record has a non-null
totalPoints (records are only created by the score path, whose events always
carry one, and only promoted from null to non-null), so the placeholder
lookup `findRaidByTotalPoints(null)` returns null on every reachable state
— the placeholder-promotion branch's guard never fires. -/
theorem c10_theorem (s : St) (h : Reachable s) :
    (∀ r ∈ s.raids, r.totalPoints.isSome = true) ∧
    (∀ now, findRaidByTotalPoints s.raids none now = none) := by
  have hall : ∀ r ∈ s.raids, r.totalPoints.isSome = true := by
    induction h with
    | init =>
        intro r hr
        exact absurd hr (List.not_mem_nil r)
    | step s env now ev hprev ih =>
        intro r' hr'
        rcases appendToSheet_tp env s now ev r' hr' with
          ⟨r, hm, _, htp | ⟨_, hsome⟩⟩ | ⟨_, hsome⟩
        · rw [htp]
          exact ih r hm
        · exact hsome
        · exact hsome
  refine ⟨hall, ?_⟩
  intro now
  unfold findRaidByTotalPoints
  apply findRaidRev_none_allSome
  intro r hr
  exact hall r (List.mem_reverse.mp hr)

/-- C10 witness: after a score event from the module-load state the
placeholder lookup still returns null. -/
theorem c10_witness :
    findRaidByTotalPoints (appendToSheet envOk St.init 1000000 (Event.points ce1)).st.raids
      none 1002000 = none :=
  (c10_theorem (appendToSheet envOk St.init 1000000 (Event.points ce1)).st
    (Reachable.step St.init envOk 1000000 (Event.points ce1) Reachable.init)).2 1002000

/-- C3: a record's non-null totalPoints is never overwritten: whatever event
is applied next, every registry record descending from it keeps the value
(the only write paths set a null totalPoints); and the concrete scenario —
291233 then 291200, within tolerance and window — yields a single record
with both participants and totalPoints 291233 (first-set wins). -/
theorem c3_theorem :
    (∀ (env : Env) (s : St) (now : Int) (ev : Event),
        ridsNodup s → (∀ x ∈ s.raids, x.rid < s.nextRid) →
        ∀ r ∈ s.raids, ∀ tp : Int, r.totalPoints = some tp →
        ∀ r' ∈ (appendToSheet env s now ev).st.raids, r'.rid = r.rid →
          r'.totalPoints = some tp) ∧
    (procScores envOkRow St.init [ce1, ce2]).raids.length = 1 ∧
    (procScores envOkRow St.init [ce1, ce2]).raids.map Raid.totalPoints =
      [some 291233] ∧
    (procScores envOkRow St.init [ce1, ce2]).raids.map
      (fun r => r.players.map Player.name) = [["Hyperr", "rg44"]] := by
  refine ⟨?_, by decide, by decide, by decide⟩
  intro env s now ev hnd hfresh r hr tp htp r' hr' hrid
  rcases appendToSheet_tp env s now ev r' hr' with ⟨q, hq, hqrid, hcase⟩ | ⟨hfr, _⟩
  · have hqr : q = r := List.inj_on_of_nodup_map hnd hq hr (hqrid.trans hrid)
    subst hqr
    rcases hcase with h1 | ⟨h2, _⟩
    · rw [h1, htp]
    · rw [htp] at h2
      cases h2
  · rw [hrid] at hfr
    exact absurd hfr (Nat.ne_of_lt (hfresh r hr))

/-- C3 witness: applying the second scenario event to the persisted
single-record state keeps totalPoints 291233 on the surviving record. -/
theorem c3_witness :
    (appendToSheet envOkRow sW3 1002000 (Event.points ce2)).st.raids.map
      (fun r => (r.rid, r.totalPoints)) = [(0, some 291233)] := by
  have h := c3_theorem.1 envOkRow sW3 1002000 (Event.points ce2)
      (by unfold ridsNodup; decide) (by decide)
      rW3 (by decide) 291233 (by decide) rW3out (by decide) (by decide)
  have hlist : (appendToSheet envOkRow sW3 1002000 (Event.points ce2)).st.raids =
      [rW3out] := by decide
  rw [hlist]
  have hrid : rW3out.rid = 0 := rfl
  simp [h, hrid]

theorem setRaid_singleton (raid0 raidX : Raid) (h : raidX.rid = raid0.rid) :
    setRaid [raid0] raidX = [raidX] := by
  unfold setRaid
  rw [List.map_cons, List.map_nil, if_pos h.symm]

theorem dedupByName_short (l : List Player) (h : l.length ≤ 1) : dedupByName l = l := by
  cases l with
  | nil => rfl
  | cons x t =>
      cases t with
      | nil => rfl
      | cons y u => simp at h

theorem specParticipants_short (ps : List Player) (h : ps.length ≤ 1) :
    specParticipants ps =
      (ps.filter (fun p => MIN_POINTS_THRESHOLD ≤ p.points)).take MAX_PLAYERS := by
  unfold specParticipants
  rw [dedupByName_short]
  exact le_trans (List.length_filter_le _ _) h

theorem head_toList_short (l : List Player) (h : l.length ≤ 1) : l.head?.toList = l := by
  cases l with
  | nil => rfl
  | cons x t =>
      cases t with
      | nil => rfl
      | cons y u => simp at h

theorem dedup_foldl_mem :
    ∀ (l : List Player) (acc : List Player) (x : Player),
      x ∈ l.foldl (fun acc p => if acc.any (fun q => q.name == p.name) then acc
        else acc ++ [p]) acc → x ∈ acc ∨ x ∈ l := by
  intro l
  induction l with
  | nil =>
      intro acc x hx
      exact Or.inl hx
  | cons p t ih =>
      intro acc x hx
      rw [List.foldl_cons] at hx
      rcases ih _ x hx with h | h
      · split at h
        · exact Or.inl h
        · rcases List.mem_append.mp h with h2 | h2
          · exact Or.inl h2
          · exact Or.inr (List.mem_cons.mpr (Or.inl (List.mem_singleton.mp h2)))
      · exact Or.inr (List.mem_cons_of_mem p h)

theorem dedupByName_subset (l : List Player) : ∀ x ∈ dedupByName l, x ∈ l := by
  intro x hx
  rcases dedup_foldl_mem l [] x hx with h | h
  · cases h
  · exact h

theorem dedupByName_append_one (l : List Player) (p : Player) :
    dedupByName (l ++ [p]) =
      if (dedupByName l).any (fun q => q.name == p.name) then dedupByName l
      else dedupByName l ++ [p] := by
  unfold dedupByName
  rw [List.foldl_append]
  rfl

theorem addParticipant_spec (fl : List Player) (p? : Option Player) :
    addParticipant (specParticipants fl) p? = specParticipants (fl ++ p?.toList) := by
  cases p? with
  | none => simp [addParticipant]
  | some p =>
      by_cases hth : p.points < MIN_POINTS_THRESHOLD
      · have h1 : ¬ MIN_POINTS_THRESHOLD ≤ p.points := by omega
        have hfil : (fl ++ [p]).filter (fun q => MIN_POINTS_THRESHOLD ≤ q.points) =
            fl.filter (fun q => MIN_POINTS_THRESHOLD ≤ q.points) := by
          rw [List.filter_append]
          have h2 : [p].filter (fun q => MIN_POINTS_THRESHOLD ≤ q.points) = [] := by
            simp [List.filter_cons, h1]
          rw [h2, List.append_nil]
        unfold addParticipant
        dsimp only
        rw [if_pos hth]
        show specParticipants fl = specParticipants (fl ++ [p])
        unfold specParticipants
        rw [hfil]
      · have hge : MIN_POINTS_THRESHOLD ≤ p.points := by omega
        have hfil : (fl ++ [p]).filter (fun q => MIN_POINTS_THRESHOLD ≤ q.points) =
            fl.filter (fun q => MIN_POINTS_THRESHOLD ≤ q.points) ++ [p] := by
          rw [List.filter_append]
          congr 1
          simp [List.filter_cons, hge]
        unfold addParticipant
        dsimp only
        rw [if_neg hth]
        show (if (specParticipants fl).length < MAX_PLAYERS then
                if (specParticipants fl).any (fun q => q.name == p.name) then
                  specParticipants fl
                else specParticipants fl ++ [p]
              else specParticipants fl) = specParticipants (fl ++ [p])
        unfold specParticipants
        rw [hfil, dedupByName_append_one]
        by_cases hlen :
            (dedupByName (fl.filter (fun q => MIN_POINTS_THRESHOLD ≤ q.points))).length <
              MAX_PLAYERS
        · have htake := List.take_of_length_le (le_of_lt hlen)
          rw [htake, if_pos hlen]
          split
          · exact htake.symm
          · refine (List.take_of_length_le ?_).symm
            rw [List.length_append]
            simp only [List.length_singleton]
            omega
        · have hmin : (List.take MAX_PLAYERS
              (dedupByName (fl.filter (fun q => MIN_POINTS_THRESHOLD ≤ q.points)))).length =
                MAX_PLAYERS := by
            rw [List.length_take]
            omega
          rw [if_neg (by omega)]
          split
          · rfl
          · exact (List.take_append_of_le_length (by omega)).symm

theorem merge_empty_buffers (s : St) (raid : Raid) (hd : s.durations = [])
    (hl : s.loots = []) :
    mergeOrphansWithRaid s raid = (s, raid, false) := by
  unfold mergeOrphansWithRaid
  dsimp only
  rw [hd]
  have hdc : ¬(raid.completionTime = "" ∧ ([] : List DurationOrphan) ≠ []) :=
    fun h => h.2 rfl
  rw [if_neg hdc]
  dsimp only
  rw [hl]
  have hlc : ¬(sortByDiff (collectLootMatches ([] : List LootOrphan) raid.timestamp) ≠ []) :=
    fun h => h rfl
  rw [if_neg hlc]

theorem finishScorePath_single (env : Env) (s : St) (now : Int) (raid : Raid)
    (hs : s.raids = [raid]) :
    ∃ r : Raid, (finishScorePath env s now raid).st.raids = [r] ∧
      r.rid = raid.rid ∧ r.timestamp = raid.timestamp ∧
      r.totalPoints = raid.totalPoints ∧ r.players = raid.players ∧
      (finishScorePath env s now raid).st.nextRid = s.nextRid := by
  unfold finishScorePath
  split
  · exact ⟨raid, hs, rfl, rfl, rfl, rfl, rfl⟩
  · split
    · dsimp only
      split
      · rename_i rn heq
        dsimp only
        refine ⟨{ raid with sheetRow := some rn, addedToSheet := true }, ?_, rfl, rfl,
          rfl, rfl, ?_⟩
        · rw [(appendRow_buffers env s now (raidToRow raid) 0).1, hs]
          exact setRaid_singleton raid _ rfl
        · exact (appendRow_buffers env s now (raidToRow raid) 0).2.2.2
      · dsimp only
        refine ⟨raid, ?_, rfl, rfl, rfl, rfl, ?_⟩
        · rw [(appendRow_buffers env s now (raidToRow raid) 0).1, hs]
        · exact (appendRow_buffers env s now (raidToRow raid) 0).2.2.2
      · dsimp only
        refine ⟨raid, ?_, rfl, rfl, rfl, rfl, ?_⟩
        · rw [(appendRow_buffers env s now (raidToRow raid) 0).1, hs]
        · exact (appendRow_buffers env s now (raidToRow raid) 0).2.2.2
    · refine ⟨raid, ?_, rfl, rfl, rfl, rfl, ?_⟩
      · rw [persistIfAdded_raids, hs]
      · exact (persistIfAdded_buffers env s now raid [] (some raid)).2.2.2

theorem scoreExisting_single (env : Env) (s : St) (now : Int) (data : ScoreEvent)
    (raid0 : Raid) (hs : s.raids = [raid0]) (hnn : ¬ raid0.totalPoints = none) :
    ∃ r : Raid, (scoreExisting env s now data raid0).st.raids = [r] ∧
      r.rid = raid0.rid ∧ r.timestamp = raid0.timestamp ∧
      r.totalPoints = raid0.totalPoints ∧
      r.players = addParticipant raid0.players data.players.head? ∧
      (scoreExisting env s now data raid0).st.nextRid = s.nextRid := by
  unfold scoreExisting
  dsimp only
  rw [if_neg hnn]
  cases hp : data.players.head? with
  | none =>
      try dsimp only
      refine ⟨raid0, ?_, rfl, rfl, rfl, ?_, rfl⟩
      · dsimp only
        rw [hs]
        exact setRaid_singleton raid0 raid0 rfl
      · unfold addParticipant
        rfl
  | some newP =>
      try dsimp only
      by_cases h1 : newP.points < MIN_POINTS_THRESHOLD
      · rw [if_pos h1]
        refine ⟨raid0, ?_, rfl, rfl, rfl, ?_, rfl⟩
        · dsimp only
          rw [hs]
          exact setRaid_singleton raid0 raid0 rfl
        · unfold addParticipant
          dsimp only
          rw [if_pos h1]
      · rw [if_neg h1]
        by_cases h2 : raid0.players.length < MAX_PLAYERS
        · rw [if_pos h2]
          by_cases h3 : raid0.players.any (fun q => q.name == newP.name) = true
          · rw [if_pos h3]
            refine ⟨raid0, ?_, rfl, rfl, rfl, ?_, rfl⟩
            · dsimp only
              rw [hs]
              exact setRaid_singleton raid0 raid0 rfl
            · unfold addParticipant
              dsimp only
              rw [if_neg h1, if_pos h2, if_pos h3]
          · rw [if_neg h3]
            try dsimp only
            refine ⟨{ raid0 with players := raid0.players ++ [newP] }, ?_, rfl, rfl, rfl,
              ?_, ?_⟩
            · rw [persistIfAdded_raids]
              dsimp only
              rw [hs]
              exact setRaid_singleton raid0 _ rfl
            · unfold addParticipant
              dsimp only
              rw [if_neg h1, if_pos h2, if_neg h3]
            · exact (persistIfAdded_buffers env _ now _ _ _).2.2.2
        · rw [if_neg h2]
          refine ⟨raid0, ?_, rfl, rfl, rfl, ?_, rfl⟩
          · dsimp only
            rw [hs]
            exact setRaid_singleton raid0 raid0 rfl
          · unfold addParticipant
            dsimp only
            rw [if_neg h1, if_neg h2]

theorem createRaidEntry_empty (data : ScoreEvent) (s : St) (now : Int)
    (hs : s.raids = []) (hfr : ¬ data.timestamp < now - RAID_TIMEOUT) :
    (createRaidEntry data s now).1.raids = [(createRaidEntry data s now).2] := by
  rw [createRaidEntry_raids, hs]
  rw [if_neg (by simp [MAX_RAID_HISTORY])]
  rw [List.nil_append, List.dropWhile_cons]
  rw [if_neg (by
    simp only [decide_eq_true_eq]
    rw [createRaidEntry_timestamp]
    exact hfr)]

theorem first_score_inv (env : Env) (e0 : ScoreEvent) (h0 : e0.players.length ≤ 1) :
    C5Inv e0 (specParticipants e0.players)
      (appendToSheet env St.init e0.timestamp (Event.points e0)).st := by
  have hA : (appendToSheet env St.init e0.timestamp (Event.points e0)).st =
      (handleRaidCompletion env St.init e0.timestamp e0).st := rfl
  rw [hA]
  unfold handleRaidCompletion
  rw [if_neg (by have h1 : MAX_DATA_AGE = 300000 := rfl; omega)]
  try dsimp only
  have hnone : findRaidByTotalPoints (cleanOrphans St.init e0.timestamp).raids
      (some e0.totalPoints) e0.timestamp = none := rfl
  rw [hnone]
  try dsimp only
  unfold scoreNoMatch
  have hnone2 : findRaidByTotalPoints (cleanOrphans St.init e0.timestamp).raids
      none e0.timestamp = none := rfl
  rw [hnone2]
  try dsimp only
  have hfr : ¬ e0.timestamp < e0.timestamp - RAID_TIMEOUT := by
    have h1 : RAID_TIMEOUT = 300000 := rfl
    omega
  have hcr := createRaidEntry_empty e0 (cleanOrphans St.init e0.timestamp) e0.timestamp
    rfl hfr
  have hmerge := merge_empty_buffers
    (createRaidEntry e0 (cleanOrphans St.init e0.timestamp) e0.timestamp).1
    (createRaidEntry e0 (cleanOrphans St.init e0.timestamp) e0.timestamp).2 rfl rfl
  rw [hmerge]
  try dsimp only
  rw [hcr, setRaid_singleton _ _ rfl]
  obtain ⟨r, hr, hrid, hts, htp, hps, hnr⟩ := finishScorePath_single env
    { (createRaidEntry e0 (cleanOrphans St.init e0.timestamp) e0.timestamp).1 with
        raids := [(createRaidEntry e0 (cleanOrphans St.init e0.timestamp) e0.timestamp).2] }
    e0.timestamp
    (createRaidEntry e0 (cleanOrphans St.init e0.timestamp) e0.timestamp).2 rfl
  exact ⟨r, hr, hrid, hts, htp,
    hps.trans (specParticipants_short e0.players h0).symm, hnr⟩

theorem score_step_inv (env : Env) (e0 e : ScoreEvent) (ps : List Player) (st : St)
    (hinv : C5Inv e0 ps st)
    (htol : (e.totalPoints - e0.totalPoints).natAbs ≤ POINTS_TOLERANCE)
    (hwin : e.timestamp - e0.timestamp ≤ FIND_TIME_WINDOW) :
    C5Inv e0 (addParticipant ps e.players.head?)
      (appendToSheet env st e.timestamp (Event.points e)).st := by
  obtain ⟨r, hraids, hrid, hts, htp, hps, hnr⟩ := hinv
  have hA : (appendToSheet env st e.timestamp (Event.points e)).st =
      (handleRaidCompletion env st e.timestamp e).st := rfl
  rw [hA]
  unfold handleRaidCompletion
  rw [if_neg (by have h1 : MAX_DATA_AGE = 300000 := rfl; omega)]
  try dsimp only
  have hcraids : (cleanOrphans st e.timestamp).raids = [r] := hraids
  have hfind : findRaidByTotalPoints (cleanOrphans st e.timestamp).raids
      (some e.totalPoints) e.timestamp = some r := by
    unfold findRaidByTotalPoints
    rw [hcraids]
    have hrev : ([r] : List Raid).reverse = [r] := by simp
    rw [hrev, findRaidRev]
    try dsimp only
    have hcond : (r.totalPoints.getD 0 - e.totalPoints).natAbs ≤ POINTS_TOLERANCE ∧
        e.timestamp - r.timestamp ≤ FIND_TIME_WINDOW := by
      constructor
      · rw [htp]
        have hP : POINTS_TOLERANCE = 500 := rfl
        have hg : (some e0.totalPoints).getD 0 = e0.totalPoints := rfl
        rw [hg]
        omega
      · rw [hts]
        exact hwin
    rw [if_pos hcond]
  rw [hfind]
  try dsimp only
  have hnn : ¬ r.totalPoints = none := by
    rw [htp]
    exact fun h => Option.noConfusion h
  obtain ⟨r2, h2raids, h2rid, h2ts, h2tp, h2ps, h2nr⟩ :=
    scoreExisting_single env (cleanOrphans st e.timestamp) e.timestamp e r hcraids hnn
  refine ⟨r2, h2raids, h2rid.trans hrid, h2ts.trans hts, h2tp.trans htp, ?_, h2nr.trans hnr⟩
  rw [h2ps, hps]

theorem procScores_inv (env : Env) (e0 : ScoreEvent) :
    ∀ (rest : List ScoreEvent) (st : St) (fl : List Player),
      C5Inv e0 (specParticipants fl) st →
      (∀ e ∈ rest, (e.totalPoints - e0.totalPoints).natAbs ≤ POINTS_TOLERANCE) →
      (∀ e ∈ rest, e.timestamp - e0.timestamp ≤ FIND_TIME_WINDOW) →
      (∀ e ∈ rest, e.players.length ≤ 1) →
      C5Inv e0
        (specParticipants (fl ++ rest.foldr (fun e acc => e.players ++ acc) []))
        (procScores env st rest) := by
  intro rest
  induction rest with
  | nil =>
      intro st fl hinv _ _ _
      have h1 : procScores env st ([] : List ScoreEvent) = st := rfl
      rw [h1]
      simpa using hinv
  | cons e es ih =>
      intro st fl hinv htol hwin hlen
      have hstep := score_step_inv env e0 e (specParticipants fl) st hinv
        (htol e (List.mem_cons_self e es)) (hwin e (List.mem_cons_self e es))
      rw [addParticipant_spec] at hstep
      rw [head_toList_short e.players (hlen e (List.mem_cons_self e es))] at hstep
      have hres := ih (appendToSheet env st e.timestamp (Event.points e)).st
        (fl ++ e.players) hstep
        (fun x hx => htol x (List.mem_cons_of_mem e hx))
        (fun x hx => hwin x (List.mem_cons_of_mem e hx))
        (fun x hx => hlen x (List.mem_cons_of_mem e hx))
      have hP : procScores env st (e :: es) =
          procScores env (appendToSheet env st e.timestamp (Event.points e)).st es := rfl
      rw [hP, List.foldr_cons, ← List.append_assoc]
      exact hres

/-- C5: from module load, for any sequence of score events correlating to
the same occurrence — each carrying at most one participant (as the parser
guarantees), totals within the 500-point tolerance of the first event's and
timestamps within its 2-minute window — the registry ends with a single
record whose participants are the de-duplicated-by-name union of the
events' participants in arrival order, capped at 5, with every
sub-2000-point participant skipped rather than stored. -/
theorem c5_theorem :
    ∀ (env : Env) (e0 : ScoreEvent) (rest : List ScoreEvent),
      e0.players.length ≤ 1 →
      (∀ e ∈ rest, e.players.length ≤ 1) →
      (∀ e ∈ rest, (e.totalPoints - e0.totalPoints).natAbs ≤ POINTS_TOLERANCE) →
      (∀ e ∈ rest, e.timestamp - e0.timestamp ≤ FIND_TIME_WINDOW) →
      ∃ r : Raid,
        (procScores env St.init (e0 :: rest)).raids = [r] ∧
        r.players = specParticipants
          (e0.players ++ rest.foldr (fun e acc => e.players ++ acc) []) ∧
        r.players.length ≤ MAX_PLAYERS ∧
        (∀ p ∈ r.players, MIN_POINTS_THRESHOLD ≤ p.points) := by
  intro env e0 rest h0 hlen htol hwin
  have hfirst := first_score_inv env e0 h0
  have hres := procScores_inv env e0 rest
    (appendToSheet env St.init e0.timestamp (Event.points e0)).st e0.players
    hfirst htol hwin hlen
  obtain ⟨r, hraids, _, _, _, hps, _⟩ := hres
  have hPP : procScores env St.init (e0 :: rest) =
      procScores env (appendToSheet env St.init e0.timestamp (Event.points e0)).st
        rest := rfl
  refine ⟨r, by rw [hPP]; exact hraids, hps, ?_, ?_⟩
  · rw [hps]
    unfold specParticipants
    exact List.length_take_le _ _
  · intro p hp
    rw [hps] at hp
    unfold specParticipants at hp
    have hp2 := List.mem_of_mem_take hp
    have hp3 := dedupByName_subset _ p hp2
    have hp4 := List.mem_filter.mp hp3
    exact of_decide_eq_true hp4.2

/-- C5 witness: the two-event scenario yields one record whose participants
match the spec formula. -/
theorem c5_witness :
    (procScores envOkRow St.init [ce1, ce2]).raids.map Raid.players =
      [specParticipants (ce1.players ++ [ce2].foldr (fun e acc => e.players ++ acc) [])] := by
  obtain ⟨r, h1, h2, _, _⟩ :=
    c5_theorem envOkRow ce1 [ce2] (by decide) (by decide) (by decide) (by decide)
  rw [h1, List.map_cons, List.map_nil, h2]

end RaidTracker
